import Mathlib

/-! Shallow embedding of `src/meetingbot.py` (a Telegram meeting bot):
the datetime-range parser, the SQLite-backed meeting store, the
guided-entry conversation flow and the list/delete command handlers,
together with proofs of the specified properties.

Modelling conventions:
* Python strings are Lean `String`s; the helpers below reproduce the
  semantics of `str.strip`, `str.split`, `str.split("-", 1)`, slicing and
  `int(...)` on the ASCII inputs the program handles (Unicode whitespace
  and non-ASCII decimal digits are outside the modelled input space).
* `datetime` values are records of calendar fields; the fixed timezone
  `ZoneInfo("Asia/Singapore")` is modelled as the constant offset
  `+08:00` it denotes in the modern era, so `isoformat` output is the
  canonical `YYYY-MM-DDTHH:MM:SS+08:00` text.
* SQLite TEXT comparison (`ORDER BY start_ts`, `start_ts >= ?`) is
  binary byte order, modelled by `charListLe` on code points (identical
  to byte order for this ASCII data).
* Exceptions are modelled with `Option`/`Except`: a Python function that
  catches everything and returns `None, None` becomes a total function
  into a pair of options.
-/

namespace Meetingbot

/-- Whitespace characters recognised by Python `str.strip` and
`str.split` (ASCII fragment). -/
def isPySpace (c : Char) : Bool :=
  c = ' ' || c = '\t' || c = '\n' || c = '\r' || c = '\x0b' || c = '\x0c'

/-- Python `str.strip()` on a character list: drop leading and trailing
whitespace. -/
def stripChars (l : List Char) : List Char :=
  ((l.dropWhile isPySpace).reverse.dropWhile isPySpace).reverse

/-- Worker for Python `str.split()` with no separator: split on
whitespace runs, dropping empty fields; `acc` holds the current token
reversed. -/
def wordsAux : List Char → List Char → List (List Char)
  | [], [] => []
  | [], acc => [acc.reverse]
  | c :: cs, acc =>
    if isPySpace c then
      match acc with
      | [] => wordsAux cs []
      | _ => acc.reverse :: wordsAux cs []
    else wordsAux cs (c :: acc)

/-- Python `str.split()` with no separator. -/
def words (l : List Char) : List (List Char) := wordsAux l []

/-- Python `text.split("-", 1)`: split at the first dash; `none` models
the `if "-" not in text` early return. -/
def splitFirstDash : List Char → Option (List Char × List Char)
  | [] => none
  | c :: cs =>
    if c = '-' then some ([], cs)
    else (splitFirstDash cs).map (fun p => (c :: p.1, p.2))

/-- Digit run of a Python integer literal after the first digit: single
underscores may separate digits; `acc` is the value read so far. -/
def pyDigits (acc : Nat) : List Char → Option Nat
  | [] => some acc
  | c :: cs =>
    if c.isDigit then pyDigits (10 * acc + (c.toNat - 48)) cs
    else if c = '_' then
      match cs with
      | d :: ds => if d.isDigit then pyDigits (10 * acc + (d.toNat - 48)) ds else none
      | [] => none
    else none

/-- Unsigned integer literal: at least one digit. -/
def pyNat : List Char → Option Nat
  | [] => none
  | c :: cs => if c.isDigit then pyDigits (c.toNat - 48) cs else none

/-- Python `int(s)` on a string: optional surrounding whitespace, an
optional sign, then a digit run with optional single underscores
between digits; `none` models the `ValueError`. -/
def pyInt (l : List Char) : Option Int :=
  match stripChars l with
  | '+' :: rest => (pyNat rest).map (fun n => (n : Int))
  | '-' :: rest => (pyNat rest).map (fun n => -(n : Int))
  | rest => (pyNat rest).map (fun n => (n : Int))

/-- A Python `datetime` carrying the program's fixed tzinfo
(`Asia/Singapore`, modelled as the constant offset +08:00). -/
structure DateTime where
  year : Nat
  month : Nat
  day : Nat
  hour : Nat
  minute : Nat
  second : Nat
deriving DecidableEq, Repr

/-- Gregorian leap-year rule used by `datetime`. -/
def isLeap (y : Nat) : Bool := y % 4 = 0 && (y % 100 ≠ 0 || y % 400 = 0)

/-- Days in a month, as validated by the `datetime` constructor. -/
def daysInMonth (y m : Nat) : Nat :=
  if m = 2 then (if isLeap y then 29 else 28)
  else if m = 4 || m = 6 || m = 9 || m = 11 then 30
  else 31

/-- Field ranges guaranteed by the `datetime` constructor. -/
def validDT (dt : DateTime) : Prop :=
  1 ≤ dt.year ∧ dt.year ≤ 9999 ∧ 1 ≤ dt.month ∧ dt.month ≤ 12 ∧
  1 ≤ dt.day ∧ dt.day ≤ daysInMonth dt.year dt.month ∧
  dt.hour ≤ 23 ∧ dt.minute ≤ 59 ∧ dt.second ≤ 59

instance : DecidablePred validDT := fun dt => by unfold validDT; infer_instance

/-- `datetime(year, month, day, hour, minute, tzinfo=TIMEZONE)`: checks
the field ranges and raises `ValueError` (here `none`) otherwise;
seconds default to 0. -/
def mkDatetime (y mo d h mi : Int) : Option DateTime :=
  if 1 ≤ y ∧ y ≤ 9999 ∧ 1 ≤ mo ∧ mo ≤ 12 ∧ 1 ≤ d ∧
     d ≤ (daysInMonth y.toNat mo.toNat : Int) ∧
     0 ≤ h ∧ h ≤ 23 ∧ 0 ≤ mi ∧ mi ≤ 59 then
    some ⟨y.toNat, mo.toNat, d.toNat, h.toNat, mi.toNat, 0⟩
  else none

/-- `parse_dt` (meetingbot.py lines 114-130): parse
`YYYY MM DD HHMM - HHMM`.  The `try/except` swallowing every exception
makes the function total, with `(none, none)` as the failure value. -/
def parse_dt (text : String) : Option DateTime × Option DateTime :=
  match splitFirstDash text.data with
  | none => (none, none)
  | some (datePart, timePart) =>
    match words (stripChars datePart) with
    | [year, month, day, startHm] =>
      let endHm := stripChars timePart
      match pyInt year, pyInt month, pyInt day,
            pyInt (startHm.take 2), pyInt (startHm.drop 2),
            pyInt (endHm.take 2), pyInt (endHm.drop 2) with
      | some y, some mo, some d, some h1, some m1, some h2, some m2 =>
        match mkDatetime y mo d h1 m1, mkDatetime y mo d h2 m2 with
        | some s, some e => (some s, some e)
        | _, _ => (none, none)
      | _, _, _, _, _, _, _ => (none, none)
    | _ => (none, none)

/-- `parse_single_dt` (lines 132-141): parse a single
`YYYY MM DD HHMM`; this function has no caller in the program. -/
def parse_single_dt (text : String) : Option DateTime :=
  match words (stripChars text.data) with
  | [year, month, day, hm] =>
    match pyInt year, pyInt month, pyInt day,
          pyInt (hm.take 2), pyInt (hm.drop 2) with
    | some y, some mo, some d, some h, some mi => mkDatetime y mo d h mi
    | _, _, _, _, _ => none
  | _ => none

/-- Python `str.strip()` on a string. -/
def pystrip (s : String) : String := ⟨stripChars s.data⟩

/-- Zero-padded `w`-digit decimal rendering (the `%02d`-style fields of
`isoformat` and `strftime`). -/
def padDigits : Nat → Nat → List Char
  | 0, _ => []
  | w + 1, n => Char.ofNat (48 + n / 10 ^ w) :: padDigits w (n % 10 ^ w)

/-- Number of decimal digits of `n` (at least one). -/
def numDigits (n : Nat) : Nat := if n = 0 then 1 else Nat.log 10 n + 1

/-- Unpadded decimal rendering (glibc `%Y`, Python `str` of an int). -/
def natChars (n : Nat) : List Char := padDigits (numDigits n) n

/-- The fixed UTC offset text of the program's timezone. -/
def offsetSuffix : List Char := ['+', '0', '8', ':', '0', '0']

/-- `datetime.isoformat()` of an aware value at the fixed +08:00 offset
(microsecond 0, as produced by `parse_dt`). -/
def isoChars (dt : DateTime) : List Char :=
  padDigits 4 dt.year ++ '-' :: (padDigits 2 dt.month ++ '-' ::
    (padDigits 2 dt.day ++ 'T' :: (padDigits 2 dt.hour ++ ':' ::
      (padDigits 2 dt.minute ++ ':' :: (padDigits 2 dt.second ++ offsetSuffix)))))

def isoString (dt : DateTime) : String := ⟨isoChars dt⟩

/-- A naive `datetime` (no tzinfo), as produced by `datetime.now()` for
the `created_at` column; microseconds included. -/
structure NaiveDT where
  year : Nat
  month : Nat
  day : Nat
  hour : Nat
  minute : Nat
  second : Nat
  microsecond : Nat
deriving DecidableEq, Repr

/-- Field ranges of a naive `datetime`. -/
def validNaive (t : NaiveDT) : Prop :=
  1 ≤ t.year ∧ t.year ≤ 9999 ∧ 1 ≤ t.month ∧ t.month ≤ 12 ∧
  1 ≤ t.day ∧ t.day ≤ daysInMonth t.year t.month ∧
  t.hour ≤ 23 ∧ t.minute ≤ 59 ∧ t.second ≤ 59 ∧ t.microsecond ≤ 999999

instance : DecidablePred validNaive := fun t => by unfold validNaive; infer_instance

/-- `datetime.isoformat()` of a naive value: no offset suffix, and the
`.ffffff` fraction only when the microsecond is nonzero. -/
def isoNaiveChars (t : NaiveDT) : List Char :=
  padDigits 4 t.year ++ '-' :: (padDigits 2 t.month ++ '-' ::
    (padDigits 2 t.day ++ 'T' :: (padDigits 2 t.hour ++ ':' ::
      (padDigits 2 t.minute ++ ':' :: (padDigits 2 t.second ++
        (if t.microsecond = 0 then [] else '.' :: padDigits 6 t.microsecond))))))

def isoNaiveString (t : NaiveDT) : String := ⟨isoNaiveChars t⟩

/-- Read exactly `w` decimal digits as a number, returning the rest. -/
def readPad : Nat → List Char → Option (Nat × List Char)
  | 0, cs => some (0, cs)
  | _ + 1, [] => none
  | w + 1, c :: cs =>
    if c.isDigit then (readPad w cs).map (fun p => ((c.toNat - 48) * 10 ^ w + p.1, p.2))
    else none

def expectChar (c : Char) : List Char → Option (List Char)
  | [] => none
  | d :: ds => if d = c then some ds else none

/-- `datetime.fromisoformat` followed by `astimezone(TIMEZONE)`,
restricted to the canonical `YYYY-MM-DDTHH:MM:SS+08:00` text that the
program itself stores (Python accepts more shapes, but none of them
occur, and `astimezone` is the identity at the stored offset). -/
def fromIsoAwareChars (l : List Char) : Option DateTime := do
  let (y, r) ← readPad 4 l
  let r ← expectChar '-' r
  let (mo, r) ← readPad 2 r
  let r ← expectChar '-' r
  let (d, r) ← readPad 2 r
  let r ← expectChar 'T' r
  let (h, r) ← readPad 2 r
  let r ← expectChar ':' r
  let (mi, r) ← readPad 2 r
  let r ← expectChar ':' r
  let (sec, r) ← readPad 2 r
  if r = offsetSuffix then some ⟨y, mo, d, h, mi, sec⟩ else none

def fromIsoAware (s : String) : Option DateTime := fromIsoAwareChars s.data

/-- `datetime.fromisoformat` on the naive `created_at` text. -/
def fromIsoNaiveChars (l : List Char) : Option NaiveDT := do
  let (y, r) ← readPad 4 l
  let r ← expectChar '-' r
  let (mo, r) ← readPad 2 r
  let r ← expectChar '-' r
  let (d, r) ← readPad 2 r
  let r ← expectChar 'T' r
  let (h, r) ← readPad 2 r
  let r ← expectChar ':' r
  let (mi, r) ← readPad 2 r
  let r ← expectChar ':' r
  let (sec, r) ← readPad 2 r
  match r with
  | [] => some ⟨y, mo, d, h, mi, sec, 0⟩
  | '.' :: r2 => do
    let (us, r3) ← readPad 6 r2
    if r3 = [] then some ⟨y, mo, d, h, mi, sec, us⟩ else none
  | _ => none

def fromIsoNaive (s : String) : Option NaiveDT := fromIsoNaiveChars s.data

/-- SQLite BINARY comparison (≤) of TEXT values, on code points. -/
def charListLe : List Char → List Char → Bool
  | [], _ => true
  | _ :: _, [] => false
  | a :: as, b :: bs =>
    if a.toNat < b.toNat then true
    else if b.toNat < a.toNat then false
    else charListLe as bs

def sqliteLe (s t : String) : Bool := charListLe s.data t.data

/-- Chronological key of a timestamp at the program's fixed offset:
lexicographic in the calendar fields. -/
def dtKey (dt : DateTime) : Nat :=
  ((((dt.year * 100 + dt.month) * 100 + dt.day) * 100 + dt.hour) * 100 +
    dt.minute) * 100 + dt.second

/-- Chronological order on timestamps at the fixed offset. -/
def dtLe (a b : DateTime) : Prop := dtKey a ≤ dtKey b

instance : DecidableRel dtLe := fun a b => by unfold dtLe; infer_instance

/-- One second later (for the range-boundary property). -/
def addOneSecond (dt : DateTime) : DateTime :=
  if dt.second < 59 then { dt with second := dt.second + 1 }
  else if dt.minute < 59 then { dt with minute := dt.minute + 1, second := 0 }
  else if dt.hour < 23 then { dt with hour := dt.hour + 1, minute := 0, second := 0 }
  else if dt.day < daysInMonth dt.year dt.month then
    { dt with day := dt.day + 1, hour := 0, minute := 0, second := 0 }
  else if dt.month < 12 then
    { dt with month := dt.month + 1, day := 1, hour := 0, minute := 0, second := 0 }
  else
    { dt with year := dt.year + 1, month := 1, day := 1, hour := 0, minute := 0, second := 0 }

/-- One row of the `meetings` table. -/
structure MeetingRow where
  id : Int
  chat_id : Int
  title : String
  description : String
  start_ts : String
  end_ts : Option String
  created_at : String
deriving DecidableEq, Repr

/-- The `meetings` table together with its AUTOINCREMENT counter. -/
structure Store where
  rows : List MeetingRow
  nextId : Int
deriving DecidableEq, Repr

/-- The `ORDER BY start_ts` comparison between rows. -/
def rowLe (a b : MeetingRow) : Prop := charListLe a.start_ts.data b.start_ts.data = true

instance : DecidableRel rowLe := fun a b => by unfold rowLe; infer_instance

/-- The `ORDER BY start_ts` clause (any sort honouring the TEXT order;
insertion sort here). -/
def sortByStart (l : List MeetingRow) : List MeetingRow := List.insertionSort rowLe l

/-- `add_meeting` (lines 74-79): INSERT with `created_at` the current
naive local time, passed here as the `now` parameter. -/
def add_meeting (st : Store) (chat_id : Int) (title description : String)
    (start_dt : DateTime) (end_dt : Option DateTime) (now : NaiveDT) : Store :=
  { rows := st.rows ++ [{
      id := st.nextId,
      chat_id := chat_id,
      title := title,
      description := if description = "" then "" else description,
      start_ts := isoString start_dt,
      end_ts := end_dt.map isoString,
      created_at := isoNaiveString now }],
    nextId := st.nextId + 1 }

/-- `list_meetings_for_chat` (lines 81-86). -/
def list_meetings_for_chat (st : Store) (chat_id : Int) : List MeetingRow :=
  sortByStart (st.rows.filter (fun r => r.chat_id == chat_id))

/-- `get_meeting` (lines 88-94): first row with the id in table order
(ids are unique in practice). -/
def get_meeting (st : Store) (meeting_id : Int) : Option MeetingRow :=
  (st.rows.filter (fun r => r.id == meeting_id)).head?

/-- `UPDATE meetings SET <field> = ? WHERE id = ?` applied to one row. -/
def setField (r : MeetingRow) (field : String) (value : String) : MeetingRow :=
  if field = "title" then { r with title := value }
  else if field = "description" then { r with description := value }
  else if field = "start_ts" then { r with start_ts := value }
  else if field = "end_ts" then { r with end_ts := some value }
  else r

/-- `update_meeting_field` (lines 96-100): allow-list check, then the
UPDATE; `Except.error` models the raised `ValueError`, before any
storage access. -/
def update_meeting_field (st : Store) (meeting_id : Int) (field : String)
    (value : String) : Except String Store :=
  if field = "title" || field = "description" || field = "start_ts" || field = "end_ts" then
    Except.ok { st with rows := st.rows.map (fun r =>
      if r.id == meeting_id then setField r field value else r) }
  else Except.error "invalid field"

/-- `delete_meeting` (lines 102-104): unconditional DELETE by id. -/
def delete_meeting (st : Store) (meeting_id : Int) : Store :=
  { st with rows := st.rows.filter (fun r => r.id != meeting_id) }

/-- `meetings_in_range` (lines 106-111): TEXT comparison of the
`isoformat` bounds against `start_ts`, then `ORDER BY start_ts`. -/
def meetings_in_range (st : Store) (chat_id : Int) (start_dt end_dt : DateTime) :
    List MeetingRow :=
  sortByStart (st.rows.filter (fun r =>
    r.chat_id == chat_id && sqliteLe (isoString start_dt) r.start_ts
      && sqliteLe r.start_ts (isoString end_dt)))

/-- glibc `strftime` format `%Y %m %d %H%M`: `%Y` unpadded, the two-digit
fields zero-padded. -/
def fmtYmdHM (dt : DateTime) : List Char :=
  natChars dt.year ++ ' ' :: (padDigits 2 dt.month ++ ' ' ::
    (padDigits 2 dt.day ++ ' ' :: (padDigits 2 dt.hour ++ padDigits 2 dt.minute)))

/-- glibc `strftime` format `%H%M`. -/
def fmtHM (dt : DateTime) : List Char := padDigits 2 dt.hour ++ padDigits 2 dt.minute

/-- `fmt_meeting_row` (lines 143-153) on the columns selected by the
list query; `none` models an exception from `fromisoformat`. -/
def fmt_meeting_row (mid : Int) (title description start_ts : String)
    (end_ts : Option String) : Option String := do
  let start_dt ← fromIsoAware start_ts
  let line := "id: [" ++ toString mid ++ "] " ++ title ++ "\n" ++ String.mk (fmtYmdHM start_dt)
  let line ←
    match end_ts with
    | some e =>
      if e = "" then some line
      else do
        let end_dt ← fromIsoAware e
        pure (line ++ " - " ++ String.mk (fmtHM end_dt))
    | none => some line
  some (if description = "" then line else line ++ "\ndesc: " ++ description)

/-- Conversation states of the add flow (`ADD_TITLE`, `ADD_DESC`,
`ADD_START`) plus the `ConversationHandler.END` terminal. -/
inductive ConvState
  | addTitle
  | addDesc
  | addStart
  | ended
deriving DecidableEq, Repr

/-- The `ctx.user_data["new_meeting"]` dict: every key optional.  The
`end` key is called `endv` (`end` is reserved in Lean). -/
structure NewMeeting where
  title : Option String := none
  description : Option String := none
  start : Option DateTime := none
  endv : Option (Option DateTime) := none
deriving DecidableEq, Repr

/-- The context visible to the add flow for one chat: the store and
`ctx.user_data["new_meeting"]`. -/
structure BotEnv where
  store : Store
  new_meeting : Option NewMeeting
deriving DecidableEq, Repr

/-- Inputs the conversation reacts to: a plain text message, `/skip` or
`/cancel`. -/
inductive Incoming
  | text (s : String)
  | skip
  | cancel
deriving DecidableEq, Repr

/-- One step of the add-flow `ConversationHandler` (handlers
`add_title`, `add_desc`, `add_skip_desc`, `add_start_dt`, `add_cancel`,
lines 172-204): returns the next state, the updated context and the
reply text.  `Except.error ()` models an uncaught handler exception
(the `KeyError` paths), on which the conversation state does not
advance.  Messages no handler of the current state accepts leave
everything unchanged with an empty reply. -/
def conv_step (state : ConvState) (inp : Incoming) (env : BotEnv)
    (chat_id : Int) (now : NaiveDT) : Except Unit (ConvState × BotEnv × String) :=
  match state, inp with
  | ConvState.ended, _ => Except.ok (ConvState.ended, env, "")
  | _, Incoming.cancel =>
    Except.ok (ConvState.ended, { env with new_meeting := none }, "Add cancelled.")
  | ConvState.addTitle, Incoming.text s =>
    Except.ok (ConvState.addDesc,
      { env with new_meeting := some { title := some (pystrip s) } },
      "Send a description (or /skip):")
  | ConvState.addDesc, Incoming.text s =>
    match env.new_meeting with
    | none => Except.error ()
    | some nm =>
      Except.ok (ConvState.addStart,
        { env with new_meeting := some { nm with description := some (pystrip s) } },
        "Send date/time range (YYYY MM DD HHMM - HHMM):")
  | ConvState.addDesc, Incoming.skip =>
    match env.new_meeting with
    | none => Except.error ()
    | some nm =>
      Except.ok (ConvState.addStart,
        { env with new_meeting := some { nm with description := some "" } },
        "Send date/time range (YYYY MM DD HHMM - HHMM):")
  | ConvState.addStart, Incoming.text s =>
    match parse_dt (pystrip s) with
    | (none, _) =>
      Except.ok (ConvState.addStart, env, "Couldn\x27t parse. Format: YYYY MM DD HHMM - HHMM")
    | (some start_dt, end_dt) =>
      let nm := env.new_meeting.getD {}
      let nm := { nm with start := some start_dt, endv := some end_dt }
      match nm.title with
      | none => Except.error ()
      | some t =>
        Except.ok (ConvState.ended,
          { store := add_meeting env.store chat_id t (nm.description.getD "") start_dt end_dt now,
            new_meeting := some nm },
          "Meeting added ✅")
  | st, _ => Except.ok (st, env, "")

/-- `delete_cmd` (lines 216-234): the `/delete <id>` handler; returns
the updated store and the reply text. -/
def delete_cmd (st : Store) (chat_id : Int) (args : List String) : Store × String :=
  match args with
  | [] => (st, "Usage: /delete <id>")
  | a :: _ =>
    match pyInt a.data with
    | none => (st, "ID must be a number.")
    | some mid =>
      match get_meeting st mid with
      | none => (st, "No meeting with that ID.")
      | some m =>
        if m.chat_id ≠ chat_id then (st, "You can only delete meetings in this chat.")
        else (delete_meeting st mid, "Deleted ✅")

/-- The stored text ends in a UTC-offset suffix `±HH:MM`: the
timezone-qualified shape the specification requires of stored
timestamps. -/
def tzQualified (s : String) : Bool :=
  match s.data.reverse with
  | m2 :: m1 :: c :: h2 :: h1 :: sgn :: _ =>
    (sgn = '+' || sgn = '-') && h1.isDigit && h2.isDigit && c = ':' && m1.isDigit && m2.isDigit
  | _ => false

/-- The malformed-input conditions, phrased on the decomposition of the
input text: no dash separator, a date part whose whitespace token count
is not four, a token (or `HHMM` slice) rejected by `int`, or calendar /
clock values outside the `datetime` ranges. -/
def malformedRange (text : String) : Bool :=
  match splitFirstDash text.data with
  | none => true
  | some (datePart, timePart) =>
    match words (stripChars datePart) with
    | [year, month, day, startHm] =>
      let endHm := stripChars timePart
      match pyInt year, pyInt month, pyInt day,
            pyInt (startHm.take 2), pyInt (startHm.drop 2),
            pyInt (endHm.take 2), pyInt (endHm.drop 2) with
      | some y, some mo, some d, some h1, some m1, some h2, some m2 =>
        (mkDatetime y mo d h1 m1).isNone || (mkDatetime y mo d h2 m2).isNone
      | _, _, _, _, _, _, _ => true
    | _ => true

/-! Concrete fixtures used by the witness and counterexample theorems. -/

def sampleStart : DateTime := ⟨2024, 6, 10, 9, 0, 0⟩

def sampleEnd : DateTime := ⟨2024, 6, 10, 10, 0, 0⟩

def sampleNow : NaiveDT := ⟨2024, 6, 1, 12, 0, 0, 123456⟩

def sampleRow (i chat : Int) (ts : String) : MeetingRow :=
  ⟨i, chat, "Standup", "", ts, none, "2024-01-01T00:00:00"⟩

def sampleStore : Store :=
  ⟨[sampleRow 2 1 (isoString sampleEnd), sampleRow 1 1 (isoString sampleStart),
    sampleRow 3 1 (isoString (addOneSecond sampleEnd)), sampleRow 4 2 (isoString sampleStart)], 5⟩

def sampleF : MeetingRow → DateTime := fun r => (fromIsoAware r.start_ts).getD ⟨1, 1, 1, 0, 0, 0⟩

def sampleEnv : BotEnv := ⟨⟨[], 1⟩, some { title := some "Standup", description := some "sync" }⟩

/-! ### Character and digit lemmas -/

lemma isDigit_iff_toNat {c : Char} : c.isDigit = true ↔ (48 ≤ c.toNat ∧ c.toNat ≤ 57) := by
  simp [Char.isDigit, Char.le_def]
  constructor
  · rintro ⟨h1, h2⟩; exact ⟨h1, h2⟩
  · rintro ⟨h1, h2⟩; exact ⟨h1, h2⟩

lemma charOfNat_digit {k : Nat} (hk : k < 10) :
    (Char.ofNat (48 + k)).isDigit = true ∧ (Char.ofNat (48 + k)).toNat = 48 + k := by
  interval_cases k <;> exact ⟨by decide, by decide⟩

lemma isPySpace_false_of_digit {c : Char} (h : c.isDigit = true) : isPySpace c = false := by
  rw [isDigit_iff_toNat] at h
  obtain ⟨h1, h2⟩ := h
  unfold isPySpace
  simp only [Bool.or_eq_false_iff, decide_eq_false_iff_not]
  refine ⟨⟨⟨⟨⟨?_, ?_⟩, ?_⟩, ?_⟩, ?_⟩, ?_⟩ <;> rintro rfl <;> simp_all

lemma ne_of_digit {c d : Char} (h : c.isDigit = true) (hd : d.toNat < 48 ∨ 57 < d.toNat) :
    c ≠ d := by
  rw [isDigit_iff_toNat] at h; rintro rfl; omega

lemma length_padDigits (w n : Nat) : (padDigits w n).length = w := by
  induction w generalizing n with
  | zero => rfl
  | succ v ih => simp [padDigits, ih]

lemma div_pow_lt_ten {n v : Nat} (hn : n < 10 ^ (v + 1)) : n / 10 ^ v < 10 := by
  rw [Nat.div_lt_iff_lt_mul (Nat.pos_pow_of_pos v (by norm_num))]
  calc n < 10 ^ (v + 1) := hn
    _ ≤ 10 * 10 ^ v := by rw [pow_succ]; omega

lemma mem_padDigits {w n : Nat} (hn : n < 10 ^ w) {c : Char} (hc : c ∈ padDigits w n) :
    c.isDigit = true := by
  induction w generalizing n with
  | zero => simp [padDigits] at hc
  | succ v ih =>
    simp only [padDigits, List.mem_cons] at hc
    rcases hc with rfl | hc
    · exact (charOfNat_digit (div_pow_lt_ten hn)).1
    · exact ih (Nat.mod_lt _ (Nat.pos_pow_of_pos v (by norm_num))) hc

lemma pyDigits_padDigits (w : Nat) : ∀ (n acc : Nat), n < 10 ^ w →
    pyDigits acc (padDigits w n) = some (acc * 10 ^ w + n) := by
  induction w with
  | zero => intro n acc hn; interval_cases n; simp [padDigits, pyDigits]
  | succ v ih =>
    intro n acc hn
    have hB : 0 < 10 ^ v := Nat.pos_pow_of_pos v (by norm_num)
    have h1 := charOfNat_digit (div_pow_lt_ten hn)
    have hmod := Nat.div_add_mod n (10 ^ v)
    rw [padDigits, pyDigits.eq_def]
    simp only [h1.1, h1.2, if_true]
    rw [ih _ _ (Nat.mod_lt _ hB)]
    congr 1
    rw [Nat.add_sub_cancel_left]
    generalize hq : n / 10 ^ v = q at hmod ⊢
    generalize hr : n % 10 ^ v = r at hmod ⊢
    rw [Nat.add_mul, pow_succ]
    have h2 : q * 10 ^ v = 10 ^ v * q := Nat.mul_comm _ _
    have h3 : 10 * acc * 10 ^ v = acc * (10 ^ v * 10) := by ring
    omega

lemma pyNat_padDigits {w n : Nat} (hw : 0 < w) (hn : n < 10 ^ w) :
    pyNat (padDigits w n) = some n := by
  obtain ⟨v, rfl⟩ : ∃ v, w = v + 1 := ⟨w - 1, by omega⟩
  have h1 := charOfNat_digit (div_pow_lt_ten hn)
  rw [padDigits]
  simp only [pyNat, h1.1, h1.2, if_true]
  have hmod := Nat.div_add_mod n (10 ^ v)
  rw [pyDigits_padDigits _ _ _ (Nat.mod_lt _ (Nat.pos_pow_of_pos v (by norm_num)))]
  congr 1
  rw [Nat.add_sub_cancel_left]
  generalize hq : n / 10 ^ v = q at hmod ⊢
  generalize hr : n % 10 ^ v = r at hmod ⊢
  rw [Nat.mul_comm]
  exact hmod

lemma dropWhile_eq_self_of {p : Char → Bool} {l : List Char}
    (h : ∀ c ∈ l, p c = false) : l.dropWhile p = l := by
  cases l with
  | nil => rfl
  | cons c cs => rw [List.dropWhile_cons, h c (by simp)]; simp

lemma stripChars_of_no_space {l : List Char} (h : ∀ c ∈ l, isPySpace c = false) :
    stripChars l = l := by
  unfold stripChars
  rw [dropWhile_eq_self_of h, dropWhile_eq_self_of (by simpa using h), List.reverse_reverse]

lemma pyInt_padDigits {w n : Nat} (hw : 0 < w) (hn : n < 10 ^ w) :
    pyInt (padDigits w n) = some (n : Int) := by
  unfold pyInt
  rw [stripChars_of_no_space (fun c hc => isPySpace_false_of_digit (mem_padDigits hn hc))]
  have hne : ∀ (d : Char), (d.toNat < 48 ∨ 57 < d.toNat) →
      ∀ rest : List Char, padDigits w n ≠ d :: rest := by
    intro d hd rest hcon
    have hmem : d ∈ padDigits w n := by rw [hcon]; simp
    exact ne_of_digit (mem_padDigits hn hmem) hd rfl
  split
  · next rest heq => exact absurd heq (hne '+' (by decide) rest)
  · next rest heq => exact absurd heq (hne '-' (by decide) rest)
  · rw [pyNat_padDigits hw hn]; rfl

lemma readPad_padDigits (w : Nat) : ∀ n, n < 10 ^ w → ∀ rest : List Char,
    readPad w (padDigits w n ++ rest) = some (n, rest) := by
  induction w with
  | zero => intro n hn rest; interval_cases n; simp [padDigits, readPad]
  | succ v ih =>
    intro n hn rest
    have h1 := charOfNat_digit (div_pow_lt_ten hn)
    rw [padDigits, List.cons_append]
    simp only [readPad, h1.1, h1.2, if_true]
    have hmod := Nat.div_add_mod n (10 ^ v)
    rw [ih _ (Nat.mod_lt _ (Nat.pos_pow_of_pos v (by norm_num)))]
    rw [Nat.add_sub_cancel_left]
    generalize hq : n / 10 ^ v = q at hmod ⊢
    generalize hr : n % 10 ^ v = r at hmod ⊢
    have hval : q * 10 ^ v + r = n := by rw [Nat.mul_comm]; exact hmod
    simp [hval]

/-! ### Stripping, word-splitting and dash-splitting lemmas -/

lemma dropWhile_spaces_append {p : Char → Bool} {a w : List Char}
    (ha : ∀ c ∈ a, p c = true) (hw : ∀ c, w.head? = some c → p c = false) :
    (a ++ w).dropWhile p = w := by
  induction a with
  | nil =>
    cases w with
    | nil => rfl
    | cons x xs => rw [List.nil_append, List.dropWhile_cons, hw x rfl]; simp
  | cons s a' ih =>
    rw [List.cons_append, List.dropWhile_cons, ha s (by simp)]
    simp only [if_true]
    exact ih (fun c hc => ha c (by simp [hc]))

lemma stripChars_sandwich {a w b : List Char}
    (ha : ∀ c ∈ a, isPySpace c = true) (hb : ∀ c ∈ b, isPySpace c = true)
    (hne : w ≠ [])
    (hhead : ∀ c, w.head? = some c → isPySpace c = false)
    (hlast : ∀ c, w.getLast? = some c → isPySpace c = false) :
    stripChars (a ++ w ++ b) = w := by
  unfold stripChars
  rw [List.append_assoc]
  rw [dropWhile_spaces_append ha
    (fun c hc => hhead c (by rwa [List.head?_append_of_ne_nil w hne] at hc))]
  rw [List.reverse_append]
  rw [dropWhile_spaces_append (by simpa using hb)
    (fun c hc => hlast c (by rwa [List.head?_reverse] at hc))]
  exact List.reverse_reverse w

lemma wordsAux_nil_ne {acc : List Char} (h : acc ≠ []) : wordsAux [] acc = [acc.reverse] := by
  cases acc with
  | nil => exact absurd rfl h
  | cons c cs => rfl

lemma wordsAux_token {t : List Char} (ht : ∀ c ∈ t, isPySpace c = false) :
    ∀ rest acc, wordsAux (t ++ rest) acc = wordsAux rest (t.reverse ++ acc) := by
  induction t with
  | nil => intro rest acc; simp
  | cons c cs ih =>
    intro rest acc
    rw [List.cons_append, wordsAux.eq_def]
    simp only [ht c (by simp), Bool.false_eq_true, if_false]
    rw [ih (fun d hd => ht d (by simp [hd])) rest (c :: acc)]
    simp

lemma wordsAux_space {c : Char} (hc : isPySpace c = true) {acc : List Char} (h : acc ≠ [])
    (rest : List Char) : wordsAux (c :: rest) acc = acc.reverse :: wordsAux rest [] := by
  cases acc with
  | nil => exact absurd rfl h
  | cons a as => rw [wordsAux.eq_def]; simp [hc]

lemma wordsAux_token_all {t : List Char} (ht : ∀ c ∈ t, isPySpace c = false) (h : t ≠ []) :
    wordsAux t [] = [t] := by
  have h0 := wordsAux_token ht [] []
  rw [List.append_nil] at h0
  rw [h0, wordsAux_nil_ne (by simp [h])]
  simp

lemma words_four {t1 t2 t3 t4 : List Char}
    (ht1 : ∀ c ∈ t1, isPySpace c = false) (hn1 : t1 ≠ [])
    (ht2 : ∀ c ∈ t2, isPySpace c = false) (hn2 : t2 ≠ [])
    (ht3 : ∀ c ∈ t3, isPySpace c = false) (hn3 : t3 ≠ [])
    (ht4 : ∀ c ∈ t4, isPySpace c = false) (hn4 : t4 ≠ []) :
    words (t1 ++ ' ' :: (t2 ++ ' ' :: (t3 ++ ' ' :: t4))) = [t1, t2, t3, t4] := by
  unfold words
  rw [wordsAux_token ht1, wordsAux_space (by decide) (by simp [hn1])]
  rw [wordsAux_token ht2, wordsAux_space (by decide) (by simp [hn2])]
  rw [wordsAux_token ht3, wordsAux_space (by decide) (by simp [hn3])]
  rw [wordsAux_token_all ht4 hn4]
  simp

lemma splitFirstDash_of_not_mem {l : List Char} (h : '-' ∉ l) : splitFirstDash l = none := by
  induction l with
  | nil => rfl
  | cons c cs ih =>
    rw [splitFirstDash.eq_def]
    simp only [if_neg (show ¬ c = '-' by intro hc; exact h (by simp [hc]))]
    rw [ih (fun hm => h (by simp [hm]))]
    rfl

lemma splitFirstDash_append {pre : List Char} (h : '-' ∉ pre) (post : List Char) :
    splitFirstDash (pre ++ '-' :: post) = some (pre, post) := by
  induction pre with
  | nil => simp [splitFirstDash]
  | cons c cs ih =>
    rw [List.cons_append, splitFirstDash.eq_def]
    simp only [if_neg (show ¬ c = '-' by intro hc; exact h (by simp [hc]))]
    rw [ih (fun hm => h (by simp [hm]))]
    rfl

/-! ### SQLite TEXT-order lemmas -/

lemma charListLe_refl (l : List Char) : charListLe l l = true := by
  induction l with
  | nil => rfl
  | cons c cs ih => simp [charListLe, ih]

lemma charListLe_cons_same (c : Char) (xs ys : List Char) :
    charListLe (c :: xs) (c :: ys) = charListLe xs ys := by
  simp [charListLe]

lemma charListLe_total (a b : List Char) : charListLe a b = true ∨ charListLe b a = true := by
  induction a generalizing b with
  | nil => left; rfl
  | cons c cs ih =>
    cases b with
    | nil => right; rfl
    | cons d ds =>
      by_cases h1 : c.toNat < d.toNat
      · left; simp [charListLe, h1]
      · by_cases h2 : d.toNat < c.toNat
        · right; simp [charListLe, h2]
        · rcases ih ds with h | h
          · left; simp [charListLe, h1, h2, h]
          · right; simp [charListLe, h1, h2, h]

lemma charListLe_trans {a b c : List Char} (h1 : charListLe a b = true)
    (h2 : charListLe b c = true) : charListLe a c = true := by
  induction a generalizing b c with
  | nil => rfl
  | cons x xs ih =>
    cases b with
    | nil => simp [charListLe] at h1
    | cons y ys =>
      cases c with
      | nil => simp [charListLe] at h2
      | cons z zs =>
        simp only [charListLe] at h1 h2 ⊢
        have e1 : x.toNat < y.toNat ∨ (x.toNat = y.toNat ∧ charListLe xs ys = true) := by
          by_cases hxy : x.toNat < y.toNat
          · exact Or.inl hxy
          · by_cases hyx : y.toNat < x.toNat
            · rw [if_neg hxy, if_pos hyx] at h1; exact absurd h1 (by simp)
            · rw [if_neg hxy, if_neg hyx] at h1; exact Or.inr ⟨by omega, h1⟩
        have e2 : y.toNat < z.toNat ∨ (y.toNat = z.toNat ∧ charListLe ys zs = true) := by
          by_cases hyz : y.toNat < z.toNat
          · exact Or.inl hyz
          · by_cases hzy : z.toNat < y.toNat
            · rw [if_neg hyz, if_pos hzy] at h2; exact absurd h2 (by simp)
            · rw [if_neg hyz, if_neg hzy] at h2; exact Or.inr ⟨by omega, h2⟩
        rcases e1 with h1' | ⟨hxy, h1'⟩ <;> rcases e2 with h2' | ⟨hyz, h2'⟩
        · rw [if_pos (show x.toNat < z.toNat by omega)]
        · rw [if_pos (show x.toNat < z.toNat by omega)]
        · rw [if_pos (show x.toNat < z.toNat by omega)]
        · rw [if_neg (show ¬ x.toNat < z.toNat by omega),
            if_neg (show ¬ z.toNat < x.toNat by omega)]
          exact ih h1' h2'

lemma charListLe_pad_append {w n m : Nat} (hn : n < 10 ^ w) (hm : m < 10 ^ w)
    (xs ys : List Char) :
    charListLe (padDigits w n ++ xs) (padDigits w m ++ ys) =
      (if n < m then true else if m < n then false else charListLe xs ys) := by
  induction w generalizing n m with
  | zero =>
    have hn0 : n = 0 := by have := hn; simp at this; omega
    have hm0 : m = 0 := by have := hm; simp at this; omega
    subst hn0; subst hm0
    simp [padDigits]
  | succ v ih =>
    have hB : 0 < 10 ^ v := Nat.pos_pow_of_pos v (by norm_num)
    have hdn := div_pow_lt_ten hn
    have hdm := div_pow_lt_ten hm
    have h1 := charOfNat_digit hdn
    have h2 := charOfNat_digit hdm
    have hmodn := Nat.div_add_mod n (10 ^ v)
    have hmodm := Nat.div_add_mod m (10 ^ v)
    have hrn : n % 10 ^ v < 10 ^ v := Nat.mod_lt _ hB
    have hrm : m % 10 ^ v < 10 ^ v := Nat.mod_lt _ hB
    rw [padDigits, padDigits, List.cons_append, List.cons_append, charListLe.eq_def]
    simp only [h1.2, h2.2]
    rw [ih (Nat.mod_lt _ hB) (Nat.mod_lt _ hB)]
    generalize hp : n / 10 ^ v = p at hdn hmodn ⊢
    generalize hq : m / 10 ^ v = q at hdm hmodm ⊢
    generalize hr : n % 10 ^ v = r at hrn hmodn ⊢
    generalize hs : m % 10 ^ v = s at hrm hmodm ⊢
    have c1 : 10 ^ v * p = p * 10 ^ v := Nat.mul_comm _ _
    have c2 : 10 ^ v * q = q * 10 ^ v := Nat.mul_comm _ _
    rcases Nat.lt_trichotomy p q with hpq | hpq | hpq
    · have h3 := Nat.mul_le_mul_right (10 ^ v) hpq
      rw [Nat.succ_mul] at h3
      have hnm : n < m := by omega
      rw [if_pos (show 48 + p < 48 + q by omega), if_pos hnm]
    · subst hpq
      rw [if_neg (show ¬ 48 + p < 48 + p by omega),
          if_neg (show ¬ 48 + p < 48 + p by omega)]
      rcases Nat.lt_trichotomy r s with hrs | hrs | hrs
      · have hnm : n < m := by omega
        rw [if_pos hrs, if_pos hnm]
      · have hnm : n = m := by omega
        rw [if_neg (show ¬ r < s by omega), if_neg (show ¬ s < r by omega),
            if_neg (show ¬ n < m by omega), if_neg (show ¬ m < n by omega)]
      · have hmn : m < n := by omega
        rw [if_neg (show ¬ r < s by omega), if_pos hrs,
            if_neg (show ¬ n < m by omega), if_pos hmn]
    · have h3 := Nat.mul_le_mul_right (10 ^ v) hpq
      rw [Nat.succ_mul] at h3
      have hmn : m < n := by omega
      rw [if_neg (show ¬ 48 + p < 48 + q by omega),
          if_pos (show 48 + q < 48 + p by omega),
          if_neg (show ¬ n < m by omega), if_pos hmn]

lemma daysInMonth_le (y m : Nat) : daysInMonth y m ≤ 31 := by
  unfold daysInMonth
  split_ifs <;> norm_num

/-- Fields of a valid timestamp fit their rendered digit widths. -/
lemma validDT_fits {dt : DateTime} (h : validDT dt) :
    dt.year < 10 ^ 4 ∧ dt.month < 10 ^ 2 ∧ dt.day < 10 ^ 2 ∧
    dt.hour < 10 ^ 2 ∧ dt.minute < 10 ^ 2 ∧ dt.second < 10 ^ 2 := by
  obtain ⟨hy1, hy2, hmo1, hmo2, hd1, hd2, hh, hmi, hs⟩ := h
  have hdm := daysInMonth_le dt.year dt.month
  norm_num
  omega

lemma ifChainTrue (a b : Nat) (t : Bool) :
    ((if a < b then true else if b < a then false else t) = true) ↔
      (a < b ∨ (a = b ∧ t = true)) := by
  by_cases h1 : a < b
  · simp [h1]
  · by_cases h2 : b < a
    · simp [h1, h2, show a ≠ b by omega]
    · simp [h1, h2, show a = b by omega]

lemma lexIfKey {a1 a2 a3 a4 a5 a6 b1 b2 b3 b4 b5 b6 : Nat}
    (ha2 : a2 < 100) (ha3 : a3 < 100) (ha4 : a4 < 100) (ha5 : a5 < 100) (ha6 : a6 < 100)
    (hb2 : b2 < 100) (hb3 : b3 < 100) (hb4 : b4 < 100) (hb5 : b5 < 100) (hb6 : b6 < 100) :
    ((if a1 < b1 then true else if b1 < a1 then false else
      if a2 < b2 then true else if b2 < a2 then false else
      if a3 < b3 then true else if b3 < a3 then false else
      if a4 < b4 then true else if b4 < a4 then false else
      if a5 < b5 then true else if b5 < a5 then false else
      if a6 < b6 then true else if b6 < a6 then false else true) = true) ↔
    ((((a1 * 100 + a2) * 100 + a3) * 100 + a4) * 100 + a5) * 100 + a6 ≤
      ((((b1 * 100 + b2) * 100 + b3) * 100 + b4) * 100 + b5) * 100 + b6 := by
  rw [ifChainTrue, ifChainTrue, ifChainTrue, ifChainTrue, ifChainTrue, ifChainTrue]
  simp only [eq_self_iff_true, and_true]
  omega

/-- Literal-bound form of `validDT_fits`. -/
lemma validDT_fits2 {dt : DateTime} (h : validDT dt) :
    dt.month < 100 ∧ dt.day < 100 ∧ dt.hour < 100 ∧ dt.minute < 100 ∧ dt.second < 100 := by
  obtain ⟨hy1, hy2, hmo1, hmo2, hd1, hd2, hh, hmi, hs⟩ := h
  have hdm := daysInMonth_le dt.year dt.month
  omega

/-- SQLite TEXT order on canonical `isoformat` strings agrees with
chronological order of the timestamps. -/
lemma charListLe_iso {a b : DateTime} (ha : validDT a) (hb : validDT b) :
    charListLe (isoChars a) (isoChars b) = true ↔ dtLe a b := by
  obtain ⟨fya, fmoa, fda, fha, fmia, fsa⟩ := validDT_fits ha
  obtain ⟨fyb, fmob, fdb, fhb, fmib, fsb⟩ := validDT_fits hb
  obtain ⟨gmoa, gda, gha, gmia, gsa⟩ := validDT_fits2 ha
  obtain ⟨gmob, gdb, ghb, gmib, gsb⟩ := validDT_fits2 hb
  unfold isoChars
  rw [charListLe_pad_append fya fyb, charListLe_cons_same,
      charListLe_pad_append fmoa fmob, charListLe_cons_same,
      charListLe_pad_append fda fdb, charListLe_cons_same,
      charListLe_pad_append fha fhb, charListLe_cons_same,
      charListLe_pad_append fmia fmib, charListLe_cons_same,
      charListLe_pad_append fsa fsb, charListLe_refl]
  unfold dtLe dtKey
  exact lexIfKey gmoa gda gha gmia gsa gmob gdb ghb gmib gsb

/-! ### Sort-order instances and round-trip lemmas -/

instance : IsTotal MeetingRow rowLe :=
  ⟨fun a b => charListLe_total a.start_ts.data b.start_ts.data⟩

instance : IsTrans MeetingRow rowLe :=
  ⟨fun _ _ _ h1 h2 => charListLe_trans h1 h2⟩

lemma sortByStart_sorted (l : List MeetingRow) : List.Sorted rowLe (sortByStart l) :=
  List.sorted_insertionSort rowLe l

lemma sortByStart_perm (l : List MeetingRow) : List.Perm (sortByStart l) l :=
  List.perm_insertionSort rowLe l

lemma expectChar_cons (c : Char) (rest : List Char) : expectChar c (c :: rest) = some rest := by
  simp [expectChar]

/-- `fromisoformat` inverts `isoformat` on valid aware timestamps. -/
lemma fromIsoAware_isoString {dt : DateTime} (h : validDT dt) :
    fromIsoAware (isoString dt) = some dt := by
  obtain ⟨fy, fmo, fd, fh, fmi, fs⟩ := validDT_fits h
  show fromIsoAwareChars (isoChars dt) = some dt
  unfold fromIsoAwareChars isoChars
  simp only [readPad_padDigits 4 _ fy, readPad_padDigits 2 _ fmo, readPad_padDigits 2 _ fd,
    readPad_padDigits 2 _ fh, readPad_padDigits 2 _ fmi, readPad_padDigits 2 _ fs,
    Option.bind_eq_bind, Option.some_bind, expectChar_cons]
  simp

/-- Fields of a valid naive timestamp fit their rendered digit widths. -/
lemma validNaive_fits {t : NaiveDT} (h : validNaive t) :
    t.year < 10 ^ 4 ∧ t.month < 10 ^ 2 ∧ t.day < 10 ^ 2 ∧
    t.hour < 10 ^ 2 ∧ t.minute < 10 ^ 2 ∧ t.second < 10 ^ 2 ∧ t.microsecond < 10 ^ 6 := by
  obtain ⟨hy1, hy2, hmo1, hmo2, hd1, hd2, hh, hmi, hs, hus⟩ := h
  have hdm := daysInMonth_le t.year t.month
  norm_num
  omega

set_option maxHeartbeats 1000000 in
/-- `fromisoformat` inverts `isoformat` on valid naive timestamps. -/
lemma fromIsoNaive_isoNaiveString {t : NaiveDT} (h : validNaive t) :
    fromIsoNaive (isoNaiveString t) = some t := by
  obtain ⟨fy, fmo, fd, fh, fmi, fs, fus⟩ := validNaive_fits h
  show fromIsoNaiveChars (isoNaiveChars t) = some t
  unfold fromIsoNaiveChars isoNaiveChars
  by_cases hz : t.microsecond = 0
  · rw [if_pos hz]
    simp only [readPad_padDigits 4 _ fy, readPad_padDigits 2 _ fmo, readPad_padDigits 2 _ fd,
      readPad_padDigits 2 _ fh, readPad_padDigits 2 _ fmi, readPad_padDigits 2 _ fs,
      Option.bind_eq_bind, Option.some_bind, expectChar_cons]
    simp [hz]
    rw [← hz]
  · rw [if_neg hz]
    have h6 : padDigits 6 t.microsecond = padDigits 6 t.microsecond ++ [] := by simp
    rw [h6]
    simp only [readPad_padDigits 4 _ fy, readPad_padDigits 2 _ fmo, readPad_padDigits 2 _ fd,
      readPad_padDigits 2 _ fh, readPad_padDigits 2 _ fmi, readPad_padDigits 2 _ fs,
      readPad_padDigits 6 _ fus, Option.bind_eq_bind, Option.some_bind, expectChar_cons]
    simp

/-- Adding one second strictly increases the chronological key. -/
lemma dtKey_lt_addOneSecond {dt : DateTime} (h : validDT dt) :
    dtKey dt < dtKey (addOneSecond dt) := by
  obtain ⟨hy1, hy2, hmo1, hmo2, hd1, hd2, hh, hmi, hs⟩ := h
  have hdm := daysInMonth_le dt.year dt.month
  unfold addOneSecond dtKey
  split_ifs <;> simp <;> omega

/-- Four-digit years render the same padded or unpadded. -/
lemma natChars_of_four {y : Nat} (h1 : 1000 ≤ y) (h2 : y ≤ 9999) :
    natChars y = padDigits 4 y := by
  unfold natChars numDigits
  rw [if_neg (by omega)]
  have hlog : Nat.log 10 y = 3 :=
    Nat.log_eq_of_pow_le_of_lt_pow (by norm_num; omega) (by norm_num; omega)
  rw [hlog]

/-! ### Canonical-input parsing lemmas -/


lemma padDigits_no_space {w n : Nat} (hn : n < 10 ^ w) :
    ∀ c ∈ padDigits w n, isPySpace c = false :=
  fun _ hc => isPySpace_false_of_digit (mem_padDigits hn hc)

lemma padDigits_ne_nil {w n : Nat} (hw : 0 < w) : padDigits w n ≠ [] := by
  intro h
  have hlen := length_padDigits w n
  rw [h] at hlen
  simp at hlen
  omega

lemma parse_dt_canonical {y mo d h1 m1 h2 m2 : Nat}
    (hy1 : 1 ≤ y) (hy2 : y ≤ 9999) (hmo1 : 1 ≤ mo) (hmo2 : mo ≤ 12)
    (hd1 : 1 ≤ d) (hd2 : d ≤ daysInMonth y mo)
    (hh1 : h1 ≤ 23) (hm1 : m1 ≤ 59) (hh2 : h2 ≤ 23) (hm2 : m2 ≤ 59)
    (a b : List Char) (hasp : ∀ c ∈ a, isPySpace c = true) (hbsp : ∀ c ∈ b, isPySpace c = true) :
    parse_dt ⟨(padDigits 4 y ++ ' ' :: (padDigits 2 mo ++ ' ' :: (padDigits 2 d ++ ' ' ::
        (padDigits 2 h1 ++ padDigits 2 m1)))) ++ a ++
        '-' :: (b ++ (padDigits 2 h2 ++ padDigits 2 m2))⟩ =
      (some ⟨y, mo, d, h1, m1, 0⟩, some ⟨y, mo, d, h2, m2, 0⟩) := by
  have e2 : (10:Nat) ^ 2 = 100 := by norm_num
  have e4 : (10:Nat) ^ 4 = 10000 := by norm_num
  have fy : y < 10 ^ 4 := by omega
  have fmo : mo < 10 ^ 2 := by omega
  have hdm := daysInMonth_le y mo
  have fd : d < 10 ^ 2 := by omega
  have fh1 : h1 < 10 ^ 2 := by omega
  have fm1 : m1 < 10 ^ 2 := by omega
  have fh2 : h2 < 10 ^ 2 := by omega
  have fm2 : m2 < 10 ^ 2 := by omega
  have ht4ns : ∀ c ∈ padDigits 2 h1 ++ padDigits 2 m1, isPySpace c = false := by
    intro c hc
    rw [List.mem_append] at hc
    rcases hc with hc | hc
    · exact padDigits_no_space fh1 c hc
    · exact padDigits_no_space fm1 c hc
  have ht5ns : ∀ c ∈ padDigits 2 h2 ++ padDigits 2 m2, isPySpace c = false := by
    intro c hc
    rw [List.mem_append] at hc
    rcases hc with hc | hc
    · exact padDigits_no_space fh2 c hc
    · exact padDigits_no_space fm2 c hc
  have hW : ∀ c ∈ padDigits 4 y ++ ' ' :: (padDigits 2 mo ++ ' ' :: (padDigits 2 d ++ ' ' ::
      (padDigits 2 h1 ++ padDigits 2 m1))), c.isDigit = true ∨ c = ' ' := by
    intro c hc
    simp only [List.mem_append, List.mem_cons] at hc
    rcases hc with hc | rfl | hc | rfl | hc | rfl | hc | hc
    · exact Or.inl (mem_padDigits fy hc)
    · exact Or.inr rfl
    · exact Or.inl (mem_padDigits fmo hc)
    · exact Or.inr rfl
    · exact Or.inl (mem_padDigits fd hc)
    · exact Or.inr rfl
    · exact Or.inl (mem_padDigits fh1 hc)
    · exact Or.inl (mem_padDigits fm1 hc)
  have hnodash : '-' ∉ (padDigits 4 y ++ ' ' :: (padDigits 2 mo ++ ' ' :: (padDigits 2 d ++ ' ' ::
      (padDigits 2 h1 ++ padDigits 2 m1)))) ++ a := by
    intro hm
    rw [List.mem_append] at hm
    rcases hm with hm | hm
    · rcases hW _ hm with hdig | hsp
      · exact ne_of_digit hdig (Or.inl (by decide)) rfl
      · exact absurd hsp (by decide)
    · have := hasp _ hm
      simp [isPySpace] at this
  have hsplit := splitFirstDash_append hnodash
    (b ++ (padDigits 2 h2 ++ padDigits 2 m2))
  have hstrip := stripChars_sandwich (a := []) (b := a)
    (w := padDigits 4 y ++ ' ' :: (padDigits 2 mo ++ ' ' :: (padDigits 2 d ++ ' ' ::
      (padDigits 2 h1 ++ padDigits 2 m1))))
    (by simp) hasp (by simp)
    (by
      intro c hc
      rw [List.head?_append_of_ne_nil _ (padDigits_ne_nil (by norm_num))] at hc
      exact isPySpace_false_of_digit (mem_padDigits fy (List.mem_of_mem_head? hc)))
    (by
      intro c hc
      have hsh : padDigits 4 y ++ ' ' :: (padDigits 2 mo ++ ' ' :: (padDigits 2 d ++ ' ' ::
          (padDigits 2 h1 ++ padDigits 2 m1))) =
          (padDigits 4 y ++ ' ' :: (padDigits 2 mo ++ ' ' :: (padDigits 2 d ++ [' ']))) ++
            (padDigits 2 h1 ++ padDigits 2 m1) := by
        simp
      rw [hsh, List.getLast?_append_of_ne_nil _ (by
        intro h0
        exact padDigits_ne_nil (w := 2) (n := h1) (by norm_num)
          (List.append_eq_nil.mp h0).1)] at hc
      exact ht4ns c (List.mem_of_mem_getLast? hc))
  have hwords := @words_four (padDigits 4 y) (padDigits 2 mo) (padDigits 2 d)
    (padDigits 2 h1 ++ padDigits 2 m1)
    (padDigits_no_space fy) (padDigits_ne_nil (by norm_num))
    (padDigits_no_space fmo) (padDigits_ne_nil (by norm_num))
    (padDigits_no_space fd) (padDigits_ne_nil (by norm_num))
    ht4ns (by
      intro h0
      exact padDigits_ne_nil (w := 2) (n := h1) (by norm_num) (List.append_eq_nil.mp h0).1)
  have hstrip2 := stripChars_sandwich (a := b) (b := [])
    (w := padDigits 2 h2 ++ padDigits 2 m2) hbsp (by simp)
    (by
      intro h0
      exact padDigits_ne_nil (w := 2) (n := h2) (by norm_num) (List.append_eq_nil.mp h0).1)
    (by
      intro c hc
      rw [List.head?_append_of_ne_nil _ (padDigits_ne_nil (by norm_num))] at hc
      exact isPySpace_false_of_digit (mem_padDigits fh2 (List.mem_of_mem_head? hc)))
    (by
      intro c hc
      rw [List.getLast?_append_of_ne_nil _ (padDigits_ne_nil (by norm_num))] at hc
      exact ht5ns c (List.mem_of_mem_getLast? (by
        rw [List.getLast?_append_of_ne_nil _ (padDigits_ne_nil (by norm_num))]
        exact hc)))
  have htake1 : (padDigits 2 h1 ++ padDigits 2 m1).take 2 = padDigits 2 h1 := by
    have := List.take_left (padDigits 2 h1) (padDigits 2 m1)
    rwa [length_padDigits] at this
  have hdrop1 : (padDigits 2 h1 ++ padDigits 2 m1).drop 2 = padDigits 2 m1 := by
    have := List.drop_left (padDigits 2 h1) (padDigits 2 m1)
    rwa [length_padDigits] at this
  have htake2 : (padDigits 2 h2 ++ padDigits 2 m2).take 2 = padDigits 2 h2 := by
    have := List.take_left (padDigits 2 h2) (padDigits 2 m2)
    rwa [length_padDigits] at this
  have hdrop2 : (padDigits 2 h2 ++ padDigits 2 m2).drop 2 = padDigits 2 m2 := by
    have := List.drop_left (padDigits 2 h2) (padDigits 2 m2)
    rwa [length_padDigits] at this
  have hmk1 : mkDatetime (y : Int) (mo : Int) (d : Int) (h1 : Int) (m1 : Int) =
      some ⟨y, mo, d, h1, m1, 0⟩ := by
    unfold mkDatetime
    rw [if_pos]
    · simp
    · refine ⟨by omega, by omega, by omega, by omega, by omega, ?_, by omega, by omega, by omega, by omega⟩
      simp [Int.toNat_ofNat]
      omega
  have hmk2 : mkDatetime (y : Int) (mo : Int) (d : Int) (h2 : Int) (m2 : Int) =
      some ⟨y, mo, d, h2, m2, 0⟩ := by
    unfold mkDatetime
    rw [if_pos]
    · simp
    · refine ⟨by omega, by omega, by omega, by omega, by omega, ?_, by omega, by omega, by omega, by omega⟩
      simp [Int.toNat_ofNat]
      omega
  have hpy1 : pyInt (padDigits 4 y) = some (y : Int) := pyInt_padDigits (by norm_num) fy
  have hpy2 : pyInt (padDigits 2 mo) = some (mo : Int) := pyInt_padDigits (by norm_num) fmo
  have hpy3 : pyInt (padDigits 2 d) = some (d : Int) := pyInt_padDigits (by norm_num) fd
  have hpy4 : pyInt (padDigits 2 h1) = some (h1 : Int) := pyInt_padDigits (by norm_num) fh1
  have hpy5 : pyInt (padDigits 2 m1) = some (m1 : Int) := pyInt_padDigits (by norm_num) fm1
  have hpy6 : pyInt (padDigits 2 h2) = some (h2 : Int) := pyInt_padDigits (by norm_num) fh2
  have hpy7 : pyInt (padDigits 2 m2) = some (m2 : Int) := pyInt_padDigits (by norm_num) fm2
  unfold parse_dt
  simp only [List.append_assoc, List.cons_append, List.nil_append, List.append_nil] at hsplit hstrip hstrip2 ⊢
  simp only [hsplit, hstrip, hwords, hstrip2, htake1, hdrop1, htake2, hdrop2,
    hpy1, hpy2, hpy3, hpy4, hpy5, hpy6, hpy7, hmk1, hmk2]

lemma parse_dt_of_no_dash {text : String} (h : '-' ∉ text.data) :
    parse_dt text = (none, none) := by
  unfold parse_dt
  simp only [splitFirstDash_of_not_mem h]

lemma parse_single_dt_canonical {y mo d h mi : Nat}
    (hy1 : 1 ≤ y) (hy2 : y ≤ 9999) (hmo1 : 1 ≤ mo) (hmo2 : mo ≤ 12)
    (hd1 : 1 ≤ d) (hd2 : d ≤ daysInMonth y mo) (hh : h ≤ 23) (hmi : mi ≤ 59) :
    parse_single_dt ⟨padDigits 4 y ++ ' ' :: (padDigits 2 mo ++ ' ' :: (padDigits 2 d ++ ' ' ::
        (padDigits 2 h ++ padDigits 2 mi)))⟩ = some ⟨y, mo, d, h, mi, 0⟩ := by
  have e2 : (10:Nat) ^ 2 = 100 := by norm_num
  have e4 : (10:Nat) ^ 4 = 10000 := by norm_num
  have fy : y < 10 ^ 4 := by omega
  have fmo : mo < 10 ^ 2 := by omega
  have hdm := daysInMonth_le y mo
  have fd : d < 10 ^ 2 := by omega
  have fh : h < 10 ^ 2 := by omega
  have fmi : mi < 10 ^ 2 := by omega
  have ht4ns : ∀ c ∈ padDigits 2 h ++ padDigits 2 mi, isPySpace c = false := by
    intro c hc
    rw [List.mem_append] at hc
    rcases hc with hc | hc
    · exact padDigits_no_space fh c hc
    · exact padDigits_no_space fmi c hc
  have ht4ne : padDigits 2 h ++ padDigits 2 mi ≠ [] := by
    intro h0
    exact padDigits_ne_nil (w := 2) (n := h) (by norm_num) (List.append_eq_nil.mp h0).1
  have hstrip := stripChars_sandwich (a := []) (b := [])
    (w := padDigits 4 y ++ ' ' :: (padDigits 2 mo ++ ' ' :: (padDigits 2 d ++ ' ' ::
      (padDigits 2 h ++ padDigits 2 mi))))
    (by simp) (by simp) (by simp)
    (by
      intro c hc
      rw [List.head?_append_of_ne_nil _ (padDigits_ne_nil (by norm_num))] at hc
      exact isPySpace_false_of_digit (mem_padDigits fy (List.mem_of_mem_head? hc)))
    (by
      intro c hc
      have hsh : padDigits 4 y ++ ' ' :: (padDigits 2 mo ++ ' ' :: (padDigits 2 d ++ ' ' ::
          (padDigits 2 h ++ padDigits 2 mi))) =
          (padDigits 4 y ++ ' ' :: (padDigits 2 mo ++ ' ' :: (padDigits 2 d ++ [' ']))) ++
            (padDigits 2 h ++ padDigits 2 mi) := by
        simp
      rw [hsh, List.getLast?_append_of_ne_nil _ ht4ne] at hc
      exact ht4ns c (List.mem_of_mem_getLast? hc))
  have hwords := @words_four (padDigits 4 y) (padDigits 2 mo) (padDigits 2 d)
    (padDigits 2 h ++ padDigits 2 mi)
    (padDigits_no_space fy) (padDigits_ne_nil (by norm_num))
    (padDigits_no_space fmo) (padDigits_ne_nil (by norm_num))
    (padDigits_no_space fd) (padDigits_ne_nil (by norm_num))
    ht4ns ht4ne
  have htake : (padDigits 2 h ++ padDigits 2 mi).take 2 = padDigits 2 h := by
    have := List.take_left (padDigits 2 h) (padDigits 2 mi)
    rwa [length_padDigits] at this
  have hdrop : (padDigits 2 h ++ padDigits 2 mi).drop 2 = padDigits 2 mi := by
    have := List.drop_left (padDigits 2 h) (padDigits 2 mi)
    rwa [length_padDigits] at this
  have hmk : mkDatetime (y : Int) (mo : Int) (d : Int) (h : Int) (mi : Int) =
      some ⟨y, mo, d, h, mi, 0⟩ := by
    unfold mkDatetime
    rw [if_pos]
    · simp
    · refine ⟨by omega, by omega, by omega, by omega, by omega, ?_, by omega, by omega, by omega, by omega⟩
      simp [Int.toNat_ofNat]
      omega
  have hpy1 : pyInt (padDigits 4 y) = some (y : Int) := pyInt_padDigits (by norm_num) fy
  have hpy2 : pyInt (padDigits 2 mo) = some (mo : Int) := pyInt_padDigits (by norm_num) fmo
  have hpy3 : pyInt (padDigits 2 d) = some (d : Int) := pyInt_padDigits (by norm_num) fd
  have hpy4 : pyInt (padDigits 2 h) = some (h : Int) := pyInt_padDigits (by norm_num) fh
  have hpy5 : pyInt (padDigits 2 mi) = some (mi : Int) := pyInt_padDigits (by norm_num) fmi
  unfold parse_single_dt
  simp only [List.append_assoc, List.cons_append, List.nil_append, List.append_nil] at hstrip ⊢
  simp only [hstrip, hwords, htake, hdrop, hpy1, hpy2, hpy3, hpy4, hpy5, hmk]

lemma no_dash_canonical {y mo d h mi : Nat}
    (fy : y < 10 ^ 4) (fmo : mo < 10 ^ 2) (fd : d < 10 ^ 2) (fh : h < 10 ^ 2)
    (fmi : mi < 10 ^ 2) :
    '-' ∉ (⟨padDigits 4 y ++ ' ' :: (padDigits 2 mo ++ ' ' :: (padDigits 2 d ++ ' ' ::
        (padDigits 2 h ++ padDigits 2 mi)))⟩ : String).data := by
  intro hm
  simp only [List.mem_append, List.mem_cons] at hm
  rcases hm with hm | hm | hm | hm | hm | hm | hm | hm
  · exact ne_of_digit (mem_padDigits fy hm) (Or.inl (by decide)) rfl
  · exact absurd hm (by decide)
  · exact ne_of_digit (mem_padDigits fmo hm) (Or.inl (by decide)) rfl
  · exact absurd hm (by decide)
  · exact ne_of_digit (mem_padDigits fd hm) (Or.inl (by decide)) rfl
  · exact absurd hm (by decide)
  · exact ne_of_digit (mem_padDigits fh hm) (Or.inl (by decide)) rfl
  · exact ne_of_digit (mem_padDigits fmi hm) (Or.inl (by decide)) rfl


/-! ### Further helper lemmas -/

lemma bool_eq_decide {b : Bool} {p : Prop} [Decidable p] (h : b = true ↔ p) : b = decide p := by
  cases b
  · simp only [Bool.false_eq_true, false_iff] at h
    simp [h]
  · simp only [true_iff] at h
    simp [h]

lemma validDT_mk {y mo d h mi : Nat} (hy1 : 1 ≤ y) (hy2 : y ≤ 9999) (hmo1 : 1 ≤ mo)
    (hmo2 : mo ≤ 12) (hd1 : 1 ≤ d) (hd2 : d ≤ daysInMonth y mo) (hh : h ≤ 23) (hmi : mi ≤ 59) :
    validDT ⟨y, mo, d, h, mi, 0⟩ :=
  ⟨hy1, hy2, hmo1, hmo2, hd1, hd2, hh, hmi, by show (0:Nat) ≤ 59; decide⟩

lemma isoString_ne_empty (dt : DateTime) : isoString dt ≠ "" := by
  intro h0
  have hdata : (isoString dt).data = [] := by rw [h0]
  unfold isoString isoChars at hdata
  rcases List.append_eq_nil.mp hdata with ⟨h1, h2⟩
  simp at h2

lemma padDigits_two (x : Nat) :
    padDigits 2 x = [Char.ofNat (48 + x / 10), Char.ofNat (48 + x % 10)] := by
  simp [padDigits]

lemma padDigits_six (x : Nat) :
    padDigits 6 x = [Char.ofNat (48 + x / 10 ^ 5), Char.ofNat (48 + x % 10 ^ 5 / 10 ^ 4),
      Char.ofNat (48 + x % 10 ^ 4 / 10 ^ 3), Char.ofNat (48 + x % 10 ^ 3 / 10 ^ 2),
      Char.ofNat (48 + x % 10 ^ 2 / 10), Char.ofNat (48 + x % 10)] := by
  simp [padDigits, Nat.mod_mod_of_dvd]
  norm_num

lemma tzQualified_eq_false {s : String} {c1 c2 c3 c4 c5 c6 : Char} {rest : List Char}
    (h : s.data.reverse = c1 :: c2 :: c3 :: c4 :: c5 :: c6 :: rest)
    (h6 : c6 ≠ '+') (h6' : c6 ≠ '-') : tzQualified s = false := by
  unfold tzQualified
  rw [h]
  simp [h6, h6']

/-- Aware `isoformat` text always carries the `+08:00` offset suffix. -/
lemma tzQualified_isoString (dt : DateTime) : tzQualified (isoString dt) = true := by
  unfold tzQualified isoString isoChars offsetSuffix
  simp [List.reverse_append]

/-- Naive `isoformat` text never carries an offset suffix. -/
lemma tzQualified_isoNaive {t : NaiveDT} (h : validNaive t) :
    tzQualified (isoNaiveString t) = false := by
  have hus : t.microsecond ≤ 999999 := h.2.2.2.2.2.2.2.2.2
  by_cases hz : t.microsecond = 0
  · have hrev : (isoNaiveString t).data.reverse =
        Char.ofNat (48 + t.second % 10) :: Char.ofNat (48 + t.second / 10) :: ':' ::
        Char.ofNat (48 + t.minute % 10) :: Char.ofNat (48 + t.minute / 10) :: ':' ::
        ((padDigits 2 t.hour).reverse ++ 'T' :: ((padDigits 2 t.day).reverse ++ '-' ::
          ((padDigits 2 t.month).reverse ++ '-' :: (padDigits 4 t.year).reverse))) := by
      show (isoNaiveChars t).reverse = _
      unfold isoNaiveChars
      rw [if_pos hz, padDigits_two t.second, padDigits_two t.minute]
      simp [List.reverse_append]
    exact tzQualified_eq_false hrev (by decide) (by decide)
  · have hrev : (isoNaiveString t).data.reverse =
        Char.ofNat (48 + t.microsecond % 10) :: Char.ofNat (48 + t.microsecond % 10 ^ 2 / 10) ::
        Char.ofNat (48 + t.microsecond % 10 ^ 3 / 10 ^ 2) ::
        Char.ofNat (48 + t.microsecond % 10 ^ 4 / 10 ^ 3) ::
        Char.ofNat (48 + t.microsecond % 10 ^ 5 / 10 ^ 4) ::
        Char.ofNat (48 + t.microsecond / 10 ^ 5) ::
        ('.' :: ((padDigits 2 t.second).reverse ++ ':' :: ((padDigits 2 t.minute).reverse ++ ':' ::
          ((padDigits 2 t.hour).reverse ++ 'T' :: ((padDigits 2 t.day).reverse ++ '-' ::
            ((padDigits 2 t.month).reverse ++ '-' :: (padDigits 4 t.year).reverse)))))) := by
      show (isoNaiveChars t).reverse = _
      unfold isoNaiveChars
      rw [if_neg hz, padDigits_six t.microsecond]
      simp [List.reverse_append]
    have hd : t.microsecond / 10 ^ 5 < 10 := by omega
    exact tzQualified_eq_false hrev
      (ne_of_digit (d := '+') (charOfNat_digit hd).1 (Or.inl (by decide)))
      (ne_of_digit (d := '-') (charOfNat_digit hd).1 (Or.inl (by decide)))

/-! ### Claim theorems -/

/-- C1 (counterexample): the single-timestamp form `YYYY MM DD HHMM` is
not accepted where time input is accepted: `parse_dt` — the only parser
the add flow calls — returns no result on it (the input has no dash),
and the `awaiting_time_range` step reprompts instead of accepting. -/
theorem single_timestamp_not_accepted_cex :
    parse_dt "2024 06 10 0900" = (none, none) ∧
    conv_step ConvState.addStart (Incoming.text "2024 06 10 0900") sampleEnv 42 sampleNow =
      Except.ok (ConvState.addStart, sampleEnv,
        "Couldn\x27t parse. Format: YYYY MM DD HHMM - HHMM") :=
  ⟨by decide, rfl⟩

/-- C2 (counterexample): a wrong-length `HHMM` token does not cause a
parse failure: `090` slices into hour `09` and minute `0`, so the whole
input parses to 09:00, contradicting the claim that a wrong-length
token yields no result. -/
theorem wrong_length_hhmm_accepted_cex :
    parse_dt "2024 06 10 090 - 0930" =
      (some ⟨2024, 6, 10, 9, 0, 0⟩, some ⟨2024, 6, 10, 9, 30, 0⟩) ∧
    parse_dt "2024 06 10 090 - 0930" ≠ (none, none) :=
  ⟨by decide, by decide⟩

/-- C3 (counterexample): the allow-list of `update_meeting_field` uses
the column names `start_ts`/`end_ts`, so the field name `start` —
inside the allow-list that the claim states — is rejected with the
invalid-field error instead of succeeding. -/
theorem update_field_start_rejected_cex :
    update_meeting_field ⟨[], 1⟩ 1 "start" "v" = Except.error "invalid field" := rfl

/-- C8 (counterexample): committing the add flow makes the single
`add_meeting` call and ends the conversation, but the partial record is
not destroyed: `user_data["new_meeting"]` is still present afterwards
(only `/cancel` pops it), contradicting the claim that the session
including its partial record is destroyed. -/
theorem commit_retains_partial_record_cex :
    conv_step ConvState.addStart (Incoming.text "2024 06 10 0900 - 0930") sampleEnv 42 sampleNow =
      Except.ok (ConvState.ended,
        ⟨⟨[⟨1, 42, "Standup", "sync", "2024-06-10T09:00:00+08:00",
            some "2024-06-10T09:30:00+08:00", "2024-06-01T12:00:00.123456"⟩], 2⟩,
         some ⟨some "Standup", some "sync", some ⟨2024, 6, 10, 9, 0, 0⟩,
            some (some ⟨2024, 6, 10, 9, 30, 0⟩)⟩⟩,
        "Meeting added ✅") ∧
    (some (⟨some "Standup", some "sync", some ⟨2024, 6, 10, 9, 0, 0⟩,
        some (some ⟨2024, 6, 10, 9, 30, 0⟩)⟩ : NewMeeting) ≠ none) :=
  ⟨rfl, by decide⟩

/-- C9 (counterexample): `created_at` is written from the naive
`datetime.now()`, so its stored text carries no UTC offset — it is not
timezone-qualified, contradicting the claim that all stored timestamps
are. -/
theorem created_at_not_tz_qualified_cex :
    (add_meeting ⟨[], 1⟩ 5 "T" "" sampleStart none sampleNow).rows =
      [⟨1, 5, "T", "", "2024-06-10T09:00:00+08:00", none, "2024-06-01T12:00:00.123456"⟩] ∧
    tzQualified "2024-06-01T12:00:00.123456" = false :=
  ⟨rfl, by decide⟩


/-- C3 (amended): `update_meeting_field` reaches storage exactly for
the field names in the allow-list of column names {title, description,
start_ts, end_ts} and fails with the invalid-field error — before any
storage access, as the error return carries no store — for every other
field name, including `start` and `end` from the claim. -/
theorem update_meeting_field_allowlist (st : Store) (mid : Int) (field value : String) :
    ((field = "title" ∨ field = "description" ∨ field = "start_ts" ∨ field = "end_ts") →
      (update_meeting_field st mid field value).isOk = true) ∧
    (field ≠ "title" → field ≠ "description" → field ≠ "start_ts" → field ≠ "end_ts" →
      update_meeting_field st mid field value = Except.error "invalid field") := by
  constructor
  · intro h
    unfold update_meeting_field
    rw [if_pos (by rcases h with h | h | h | h <;> simp [h])]
    rfl
  · intro h1 h2 h3 h4
    unfold update_meeting_field
    rw [if_neg (by simp [h1, h2, h3, h4])]

/-- C3 witness: `title` is accepted, `start` is rejected. -/
theorem update_meeting_field_allowlist_witness :
    (update_meeting_field sampleStore 1 "title" "x").isOk = true ∧
    update_meeting_field sampleStore 1 "start" "x" = Except.error "invalid field" :=
  ⟨(update_meeting_field_allowlist sampleStore 1 "title" "x").1 (Or.inl rfl),
   (update_meeting_field_allowlist sampleStore 1 "start" "x").2
     (by decide) (by decide) (by decide) (by decide)⟩

/-- C4 (confirmed): for a stored meeting owned by chat `b` and a
requesting chat `a ≠ b`, the `/delete` handler leaves the store
unchanged (replying with the scope message rather than raising an
error) and `get_meeting` still returns the record. -/
theorem delete_cmd_out_of_scope_noop (st : Store) (a b i : Int) (row : MeetingRow) (arg : String)
    (harg : pyInt arg.data = some i) (hget : get_meeting st i = some row)
    (hchat : row.chat_id = b) (hne : a ≠ b) :
    delete_cmd st a [arg] = (st, "You can only delete meetings in this chat.") ∧
    get_meeting st i = some row := by
  refine ⟨?_, hget⟩
  unfold delete_cmd
  simp only [harg, hget]
  rw [if_pos (by rw [hchat]; exact Ne.symm hne)]

/-- C4 witness: chat 7 cannot delete the meeting of chat 1. -/
theorem delete_cmd_out_of_scope_noop_witness :
    delete_cmd sampleStore 7 ["1"] = (sampleStore, "You can only delete meetings in this chat.") ∧
    get_meeting sampleStore 1 = some (sampleRow 1 1 (isoString sampleStart)) :=
  delete_cmd_out_of_scope_noop sampleStore 7 1 1 (sampleRow 1 1 (isoString sampleStart)) "1"
    (by decide) (by decide) (by decide) (by decide)

/-- C5 (confirmed): on a store whose `start_ts` column holds canonical
`isoformat` text of valid timestamps (decoded by `f`, the shape of
every row written by `add_meeting`), `meetings_in_range` returns
exactly the rows of the chat whose start lies in the closed interval
from `from` to `to`: it is a permutation of that filter, rows starting
exactly at `from` or at `to` are included, and a row starting one
second after `to` is excluded. -/
theorem meetings_in_range_inclusive_spec (st : Store) (c : Int) (f : MeetingRow → DateTime)
    (fromDT toDT : DateTime) (hfrom : validDT fromDT) (hto : validDT toDT)
    (hft : dtLe fromDT toDT)
    (hrep : ∀ r ∈ st.rows, validDT (f r) ∧ r.start_ts = isoString (f r)) :
    List.Perm (meetings_in_range st c fromDT toDT)
      (st.rows.filter (fun r => r.chat_id == c && decide (dtLe fromDT (f r)) &&
        decide (dtLe (f r) toDT))) ∧
    (∀ r ∈ st.rows, r.chat_id = c → f r = fromDT → r ∈ meetings_in_range st c fromDT toDT) ∧
    (∀ r ∈ st.rows, r.chat_id = c → f r = toDT → r ∈ meetings_in_range st c fromDT toDT) ∧
    (∀ r ∈ st.rows, f r = addOneSecond toDT → r ∉ meetings_in_range st c fromDT toDT) := by
  have hfilter : st.rows.filter (fun r => r.chat_id == c &&
        sqliteLe (isoString fromDT) r.start_ts && sqliteLe r.start_ts (isoString toDT)) =
      st.rows.filter (fun r => r.chat_id == c && decide (dtLe fromDT (f r)) &&
        decide (dtLe (f r) toDT)) := by
    apply List.filter_congr
    intro r hr
    obtain ⟨hv, hiso⟩ := hrep r hr
    rw [hiso]
    have hc1 : sqliteLe (isoString fromDT) (isoString (f r)) = decide (dtLe fromDT (f r)) :=
      bool_eq_decide (charListLe_iso hfrom hv)
    have hc2 : sqliteLe (isoString (f r)) (isoString toDT) = decide (dtLe (f r) toDT) :=
      bool_eq_decide (charListLe_iso hv hto)
    rw [hc1, hc2]
  have hperm : List.Perm (meetings_in_range st c fromDT toDT)
      (st.rows.filter (fun r => r.chat_id == c && decide (dtLe fromDT (f r)) &&
        decide (dtLe (f r) toDT))) := by
    unfold meetings_in_range
    rw [hfilter]
    exact sortByStart_perm _
  refine ⟨hperm, ?_, ?_, ?_⟩
  · intro r hr hchat hfr
    rw [hperm.mem_iff, List.mem_filter]
    refine ⟨hr, ?_⟩
    simp only [hchat, hfr, Bool.and_eq_true, beq_self_eq_true, decide_eq_true_eq]
    exact ⟨⟨trivial, le_refl _⟩, hft⟩
  · intro r hr hchat hfr
    rw [hperm.mem_iff, List.mem_filter]
    refine ⟨hr, ?_⟩
    simp only [hchat, hfr, Bool.and_eq_true, beq_self_eq_true, decide_eq_true_eq]
    exact ⟨⟨trivial, hft⟩, le_refl _⟩
  · intro r hr hfr hmem
    rw [hperm.mem_iff, List.mem_filter] at hmem
    obtain ⟨_, hcond⟩ := hmem
    simp only [hfr, Bool.and_eq_true, decide_eq_true_eq] at hcond
    have hlt := dtKey_lt_addOneSecond hto
    have hle : dtLe (addOneSecond toDT) toDT := hcond.2
    unfold dtLe at hle
    omega

/-- C5 witness on a four-row store with boundary rows. -/
theorem meetings_in_range_inclusive_spec_witness :
    List.Perm (meetings_in_range sampleStore 1 sampleStart sampleEnd)
      (sampleStore.rows.filter (fun r => r.chat_id == 1 &&
        decide (dtLe sampleStart (sampleF r)) && decide (dtLe (sampleF r) sampleEnd))) ∧
    sampleRow 1 1 (isoString sampleStart) ∈ meetings_in_range sampleStore 1 sampleStart sampleEnd ∧
    sampleRow 2 1 (isoString sampleEnd) ∈ meetings_in_range sampleStore 1 sampleStart sampleEnd ∧
    sampleRow 3 1 (isoString (addOneSecond sampleEnd)) ∉
      meetings_in_range sampleStore 1 sampleStart sampleEnd := by
  have hmain := meetings_in_range_inclusive_spec sampleStore 1 sampleF sampleStart sampleEnd
    (by decide) (by decide) (by decide) (by decide)
  exact ⟨hmain.1,
    hmain.2.1 (sampleRow 1 1 (isoString sampleStart)) (by decide) (by decide) (by decide),
    hmain.2.2.1 (sampleRow 2 1 (isoString sampleEnd)) (by decide) (by decide) (by decide),
    hmain.2.2.2 (sampleRow 3 1 (isoString (addOneSecond sampleEnd))) (by decide) (by decide)⟩

/-- C6 (confirmed): for every store contents — hence every insertion
order — both `list_meetings_for_chat` and `meetings_in_range` return
rows sorted by their start timestamp ascending (SQL `ORDER BY start_ts`
on canonical `isoformat` text is chronological order). -/
theorem listings_sorted_by_start (st : Store) (c : Int) (f : MeetingRow → DateTime)
    (fromDT toDT : DateTime)
    (hrep : ∀ r ∈ st.rows, validDT (f r) ∧ r.start_ts = isoString (f r)) :
    List.Sorted (fun x y => dtLe (f x) (f y)) (list_meetings_for_chat st c) ∧
    List.Sorted (fun x y => dtLe (f x) (f y)) (meetings_in_range st c fromDT toDT) := by
  have key : ∀ (l : List MeetingRow), (∀ r ∈ l, r ∈ st.rows) →
      List.Sorted (fun x y => dtLe (f x) (f y)) (sortByStart l) := by
    intro l hsub
    have hsorted := sortByStart_sorted l
    have hmem : ∀ r ∈ sortByStart l, r ∈ st.rows :=
      fun r hr => hsub r ((sortByStart_perm l).mem_iff.mp hr)
    refine List.Pairwise.imp_of_mem ?_ hsorted
    intro x y hx hy hxy
    have hx2 := hrep x (hmem x hx)
    have hy2 := hrep y (hmem y hy)
    have hxy2 : charListLe x.start_ts.data y.start_ts.data = true := hxy
    rw [hx2.2, hy2.2] at hxy2
    exact (charListLe_iso hx2.1 hy2.1).mp hxy2
  constructor
  · exact key _ (fun r hr => (List.mem_filter.mp hr).1)
  · exact key _ (fun r hr => (List.mem_filter.mp hr).1)

/-- C6 witness on a store inserted out of order. -/
theorem listings_sorted_by_start_witness :
    List.Sorted (fun x y => dtLe (sampleF x) (sampleF y)) (list_meetings_for_chat sampleStore 1) ∧
    List.Sorted (fun x y => dtLe (sampleF x) (sampleF y))
      (meetings_in_range sampleStore 1 sampleStart sampleEnd) :=
  listings_sorted_by_start sampleStore 1 sampleF sampleStart sampleEnd (by decide)



/-- C2 (amended): `parse_dt` returns `(none, none)` exactly on the
malformed inputs — missing dash, a date part whose whitespace token
count is not four, a token or `HHMM` slice rejected by `int`, or
out-of-range calendar or clock values.  It is a total function, so no
exception ever reaches the caller.  A wrong-length `HHMM` token is not
by itself malformed (see the counterexample). -/
theorem parse_dt_failure_characterization (text : String) :
    parse_dt text = (none, none) ↔ malformedRange text = true := by
  unfold parse_dt malformedRange
  split
  · simp
  · split
    · dsimp only
      split
      · split
        · next s e heq1 heq2 =>
          simp [heq1, heq2]
        · next h0 =>
          simp
          rcases hmk1 : mkDatetime _ _ _ _ _ with _ | s
          · simp
          · rcases hmk2 : mkDatetime _ _ _ _ _ with _ | e
            · simp
            · exact absurd (h0 s e hmk1 hmk2) (by simp)
      · simp
    · simp

/-- C8 (amended): when a valid range text arrives in the
`awaiting_time_range` step, exactly one `add_meeting` call is made —
the store grows by exactly the one row built from the accumulated title
and description and the parsed range — and the conversation reaches its
terminal state; but the partial record in `user_data` is retained (with
the parsed values written into it), not destroyed. -/
theorem commit_single_add_spec (env : BotEnv) (nm : NewMeeting) (tl : String)
    (s : String) (chat : Int) (now : NaiveDT) (sdt edt : DateTime)
    (hnm : env.new_meeting = some nm) (htitle : nm.title = some tl)
    (hparse : parse_dt (pystrip s) = (some sdt, some edt)) :
    conv_step ConvState.addStart (Incoming.text s) env chat now =
      Except.ok (ConvState.ended,
        { store := add_meeting env.store chat tl (nm.description.getD "") sdt (some edt) now,
          new_meeting := some { nm with start := some sdt, endv := some (some edt) } },
        "Meeting added ✅") ∧
    (add_meeting env.store chat tl (nm.description.getD "") sdt (some edt) now).rows =
      env.store.rows ++ [⟨env.store.nextId, chat, tl,
        (if nm.description.getD "" = "" then "" else nm.description.getD ""),
        isoString sdt, some (isoString edt), isoNaiveString now⟩] := by
  constructor
  · unfold conv_step
    simp [hparse, hnm, htitle]
  · rfl

/-- C8 witness: committing `2024 06 10 0900 - 0930`. -/
theorem commit_single_add_spec_witness :
    conv_step ConvState.addStart (Incoming.text "2024 06 10 0900 - 0930") sampleEnv 42 sampleNow =
      Except.ok (ConvState.ended,
        { store := add_meeting sampleEnv.store 42 "Standup"
            ((⟨some "Standup", some "sync", none, none⟩ : NewMeeting).description.getD "")
            ⟨2024, 6, 10, 9, 0, 0⟩ (some ⟨2024, 6, 10, 9, 30, 0⟩) sampleNow,
          new_meeting := some { (⟨some "Standup", some "sync", none, none⟩ : NewMeeting) with
            start := some ⟨2024, 6, 10, 9, 0, 0⟩, endv := some (some ⟨2024, 6, 10, 9, 30, 0⟩) } },
        "Meeting added ✅") ∧
    (add_meeting sampleEnv.store 42 "Standup"
        ((⟨some "Standup", some "sync", none, none⟩ : NewMeeting).description.getD "")
        ⟨2024, 6, 10, 9, 0, 0⟩ (some ⟨2024, 6, 10, 9, 30, 0⟩) sampleNow).rows =
      sampleEnv.store.rows ++ [⟨sampleEnv.store.nextId, 42, "Standup",
        (if (⟨some "Standup", some "sync", none, none⟩ : NewMeeting).description.getD "" = ""
         then "" else (⟨some "Standup", some "sync", none, none⟩ : NewMeeting).description.getD ""),
        isoString ⟨2024, 6, 10, 9, 0, 0⟩, some (isoString ⟨2024, 6, 10, 9, 30, 0⟩),
        isoNaiveString sampleNow⟩] :=
  commit_single_add_spec sampleEnv ⟨some "Standup", some "sync", none, none⟩ "Standup"
    "2024 06 10 0900 - 0930" 42 sampleNow ⟨2024, 6, 10, 9, 0, 0⟩ ⟨2024, 6, 10, 9, 30, 0⟩
    rfl rfl (by decide)

/-- C9 (amended): `add_meeting` stores `start_ts` and `end_ts` (when
present) as fixed-format timezone-qualified `isoformat` text that
round-trips losslessly through `fromisoformat`; `created_at` also
round-trips losslessly as a naive timestamp, but it is written from the
naive `datetime.now()` and is not timezone-qualified. -/
theorem add_meeting_timestamp_round_trip (st : Store) (chat : Int) (title desc : String)
    (sdt : DateTime) (edt : Option DateTime) (now : NaiveDT)
    (hs : validDT sdt) (he : ∀ e, edt = some e → validDT e) (hn : validNaive now) :
    (add_meeting st chat title desc sdt edt now).rows =
      st.rows ++ [⟨st.nextId, chat, title, (if desc = "" then "" else desc),
        isoString sdt, edt.map isoString, isoNaiveString now⟩] ∧
    fromIsoAware (isoString sdt) = some sdt ∧ tzQualified (isoString sdt) = true ∧
    (∀ e, edt = some e → fromIsoAware (isoString e) = some e ∧
      tzQualified (isoString e) = true) ∧
    fromIsoNaive (isoNaiveString now) = some now ∧
    tzQualified (isoNaiveString now) = false := by
  refine ⟨rfl, fromIsoAware_isoString hs, tzQualified_isoString sdt, ?_,
    fromIsoNaive_isoNaiveString hn, tzQualified_isoNaive hn⟩
  intro e hedt
  exact ⟨fromIsoAware_isoString (he e hedt), tzQualified_isoString e⟩

/-- C9 witness for a concrete insert. -/
theorem add_meeting_timestamp_round_trip_witness :
    (add_meeting sampleStore 1 "T" "" sampleStart (some sampleEnd) sampleNow).rows =
      sampleStore.rows ++ [⟨sampleStore.nextId, 1, "T", (if ("" : String) = "" then "" else ""),
        isoString sampleStart, (some sampleEnd).map isoString, isoNaiveString sampleNow⟩] ∧
    fromIsoAware (isoString sampleStart) = some sampleStart ∧
    tzQualified (isoString sampleStart) = true ∧
    (fromIsoAware (isoString sampleEnd) = some sampleEnd ∧
      tzQualified (isoString sampleEnd) = true) ∧
    fromIsoNaive (isoNaiveString sampleNow) = some sampleNow ∧
    tzQualified (isoNaiveString sampleNow) = false := by
  have hmain := add_meeting_timestamp_round_trip sampleStore 1 "T" "" sampleStart (some sampleEnd)
    sampleNow (by decide) (fun e he => by cases he; decide) (by decide)
  exact ⟨hmain.1, hmain.2.1, hmain.2.2.1, hmain.2.2.2.1 sampleEnd rfl,
    hmain.2.2.2.2.1, hmain.2.2.2.2.2⟩



/-- C1 (amended): `parse_single_dt` does map `YYYY MM DD HHMM` to a
start timestamp in the fixed timezone with no end, but it has no caller
in the program: the add flow parses with `parse_dt`, which requires a
dash, so single-timestamp input yields no result and the
`awaiting_time_range` step reprompts instead of accepting it. -/
theorem single_timestamp_spec_amended {y mo d hr mi : Nat}
    (hy1 : 1 ≤ y) (hy2 : y ≤ 9999) (hmo1 : 1 ≤ mo) (hmo2 : mo ≤ 12)
    (hd1 : 1 ≤ d) (hd2 : d ≤ daysInMonth y mo) (hhr : hr ≤ 23) (hmi : mi ≤ 59) :
    parse_single_dt ⟨padDigits 4 y ++ ' ' :: (padDigits 2 mo ++ ' ' :: (padDigits 2 d ++ ' ' ::
        (padDigits 2 hr ++ padDigits 2 mi)))⟩ = some ⟨y, mo, d, hr, mi, 0⟩ ∧
    parse_dt ⟨padDigits 4 y ++ ' ' :: (padDigits 2 mo ++ ' ' :: (padDigits 2 d ++ ' ' ::
        (padDigits 2 hr ++ padDigits 2 mi)))⟩ = (none, none) ∧
    (∀ env chat now, conv_step ConvState.addStart
        (Incoming.text ⟨padDigits 4 y ++ ' ' :: (padDigits 2 mo ++ ' ' :: (padDigits 2 d ++ ' ' ::
          (padDigits 2 hr ++ padDigits 2 mi)))⟩) env chat now =
      Except.ok (ConvState.addStart, env,
        "Couldn\x27t parse. Format: YYYY MM DD HHMM - HHMM")) := by
  have e2 : (10:Nat) ^ 2 = 100 := by norm_num
  have e4 : (10:Nat) ^ 4 = 10000 := by norm_num
  have fy : y < 10 ^ 4 := by omega
  have fmo : mo < 10 ^ 2 := by omega
  have hdm := daysInMonth_le y mo
  have fd : d < 10 ^ 2 := by omega
  have fh : hr < 10 ^ 2 := by omega
  have fmi : mi < 10 ^ 2 := by omega
  have hnone : parse_dt ⟨padDigits 4 y ++ ' ' :: (padDigits 2 mo ++ ' ' :: (padDigits 2 d ++ ' ' ::
      (padDigits 2 hr ++ padDigits 2 mi)))⟩ = (none, none) :=
    parse_dt_of_no_dash (no_dash_canonical fy fmo fd fh fmi)
  refine ⟨parse_single_dt_canonical hy1 hy2 hmo1 hmo2 hd1 hd2 hhr hmi, hnone, ?_⟩
  intro env chat now
  have ht4ns : ∀ c ∈ padDigits 2 hr ++ padDigits 2 mi, isPySpace c = false := by
    intro c hc
    rw [List.mem_append] at hc
    rcases hc with hc | hc
    · exact padDigits_no_space fh c hc
    · exact padDigits_no_space fmi c hc
  have ht4ne : padDigits 2 hr ++ padDigits 2 mi ≠ [] := by
    intro h0
    exact padDigits_ne_nil (w := 2) (n := hr) (by norm_num) (List.append_eq_nil.mp h0).1
  have hstrip := stripChars_sandwich (a := []) (b := [])
    (w := padDigits 4 y ++ ' ' :: (padDigits 2 mo ++ ' ' :: (padDigits 2 d ++ ' ' ::
      (padDigits 2 hr ++ padDigits 2 mi))))
    (by simp) (by simp) (by simp)
    (by
      intro c hc
      rw [List.head?_append_of_ne_nil _ (padDigits_ne_nil (by norm_num))] at hc
      exact isPySpace_false_of_digit (mem_padDigits fy (List.mem_of_mem_head? hc)))
    (by
      intro c hc
      have hsh : padDigits 4 y ++ ' ' :: (padDigits 2 mo ++ ' ' :: (padDigits 2 d ++ ' ' ::
          (padDigits 2 hr ++ padDigits 2 mi))) =
          (padDigits 4 y ++ ' ' :: (padDigits 2 mo ++ ' ' :: (padDigits 2 d ++ [' ']))) ++
            (padDigits 2 hr ++ padDigits 2 mi) := by
        simp
      rw [hsh, List.getLast?_append_of_ne_nil _ ht4ne] at hc
      exact ht4ns c (List.mem_of_mem_getLast? hc))
  have hstrip2 : stripChars (padDigits 4 y ++ ' ' :: (padDigits 2 mo ++ ' ' :: (padDigits 2 d ++
      ' ' :: (padDigits 2 hr ++ padDigits 2 mi)))) =
      padDigits 4 y ++ ' ' :: (padDigits 2 mo ++ ' ' :: (padDigits 2 d ++ ' ' ::
        (padDigits 2 hr ++ padDigits 2 mi))) := by
    simpa using hstrip
  have hpystrip : pystrip ⟨padDigits 4 y ++ ' ' :: (padDigits 2 mo ++ ' ' :: (padDigits 2 d ++
      ' ' :: (padDigits 2 hr ++ padDigits 2 mi)))⟩ =
      ⟨padDigits 4 y ++ ' ' :: (padDigits 2 mo ++ ' ' :: (padDigits 2 d ++ ' ' ::
        (padDigits 2 hr ++ padDigits 2 mi)))⟩ := by
    show (⟨stripChars (padDigits 4 y ++ ' ' :: (padDigits 2 mo ++ ' ' :: (padDigits 2 d ++ ' ' ::
      (padDigits 2 hr ++ padDigits 2 mi))))⟩ : String) = _
    rw [hstrip2]
  unfold conv_step
  simp [hpystrip, hnone]

/-- C1 witness at the concrete input `2024 06 10 0900`. -/
theorem single_timestamp_spec_amended_witness :
    parse_single_dt ⟨padDigits 4 2024 ++ ' ' :: (padDigits 2 6 ++ ' ' :: (padDigits 2 10 ++ ' ' ::
        (padDigits 2 9 ++ padDigits 2 0)))⟩ = some ⟨2024, 6, 10, 9, 0, 0⟩ ∧
    parse_dt ⟨padDigits 4 2024 ++ ' ' :: (padDigits 2 6 ++ ' ' :: (padDigits 2 10 ++ ' ' ::
        (padDigits 2 9 ++ padDigits 2 0)))⟩ = (none, none) ∧
    conv_step ConvState.addStart
        (Incoming.text ⟨padDigits 4 2024 ++ ' ' :: (padDigits 2 6 ++ ' ' :: (padDigits 2 10 ++
          ' ' :: (padDigits 2 9 ++ padDigits 2 0)))⟩) sampleEnv 42 sampleNow =
      Except.ok (ConvState.addStart, sampleEnv,
        "Couldn\x27t parse. Format: YYYY MM DD HHMM - HHMM") := by
  have hmain := @single_timestamp_spec_amended 2024 6 10 9 0
    (by decide) (by decide) (by decide) (by decide) (by decide) (by decide) (by decide) (by decide)
  exact ⟨hmain.1, hmain.2.1, hmain.2.2 sampleEnv 42 sampleNow⟩

/-- C10 (confirmed): `parse_dt` splits at the first dash of the text,
so whitespace around the dash is not required: the unspaced form
`YYYY MM DD HHMM-HHMM` parses, with the same result as the spaced
form. -/
theorem parse_dt_first_dash_spacing {y mo d h1 m1 h2 m2 : Nat}
    (hy1 : 1 ≤ y) (hy2 : y ≤ 9999) (hmo1 : 1 ≤ mo) (hmo2 : mo ≤ 12)
    (hd1 : 1 ≤ d) (hd2 : d ≤ daysInMonth y mo)
    (hh1 : h1 ≤ 23) (hm1 : m1 ≤ 59) (hh2 : h2 ≤ 23) (hm2 : m2 ≤ 59) :
    parse_dt ⟨(padDigits 4 y ++ ' ' :: (padDigits 2 mo ++ ' ' :: (padDigits 2 d ++ ' ' ::
        (padDigits 2 h1 ++ padDigits 2 m1)))) ++ [] ++
        '-' :: ([] ++ (padDigits 2 h2 ++ padDigits 2 m2))⟩ =
      parse_dt ⟨(padDigits 4 y ++ ' ' :: (padDigits 2 mo ++ ' ' :: (padDigits 2 d ++ ' ' ::
        (padDigits 2 h1 ++ padDigits 2 m1)))) ++ [' '] ++
        '-' :: ([' '] ++ (padDigits 2 h2 ++ padDigits 2 m2))⟩ ∧
    parse_dt ⟨(padDigits 4 y ++ ' ' :: (padDigits 2 mo ++ ' ' :: (padDigits 2 d ++ ' ' ::
        (padDigits 2 h1 ++ padDigits 2 m1)))) ++ [] ++
        '-' :: ([] ++ (padDigits 2 h2 ++ padDigits 2 m2))⟩ =
      (some ⟨y, mo, d, h1, m1, 0⟩, some ⟨y, mo, d, h2, m2, 0⟩) := by
  have hu := parse_dt_canonical hy1 hy2 hmo1 hmo2 hd1 hd2 hh1 hm1 hh2 hm2
    [] [] (by simp) (by simp)
  have hs := parse_dt_canonical hy1 hy2 hmo1 hmo2 hd1 hd2 hh1 hm1 hh2 hm2
    [' '] [' '] (by decide) (by decide)
  rw [hu, hs]
  exact ⟨rfl, rfl⟩

/-- C10 witness at the concrete input `2024 06 10 0900-0930`. -/
theorem parse_dt_first_dash_spacing_witness :
    parse_dt ⟨(padDigits 4 2024 ++ ' ' :: (padDigits 2 6 ++ ' ' :: (padDigits 2 10 ++ ' ' ::
        (padDigits 2 9 ++ padDigits 2 0)))) ++ [] ++
        '-' :: ([] ++ (padDigits 2 9 ++ padDigits 2 30))⟩ =
      parse_dt ⟨(padDigits 4 2024 ++ ' ' :: (padDigits 2 6 ++ ' ' :: (padDigits 2 10 ++ ' ' ::
        (padDigits 2 9 ++ padDigits 2 0)))) ++ [' '] ++
        '-' :: ([' '] ++ (padDigits 2 9 ++ padDigits 2 30))⟩ ∧
    parse_dt ⟨(padDigits 4 2024 ++ ' ' :: (padDigits 2 6 ++ ' ' :: (padDigits 2 10 ++ ' ' ::
        (padDigits 2 9 ++ padDigits 2 0)))) ++ [] ++
        '-' :: ([] ++ (padDigits 2 9 ++ padDigits 2 30))⟩ =
      (some ⟨2024, 6, 10, 9, 0, 0⟩, some ⟨2024, 6, 10, 9, 30, 0⟩) :=
  parse_dt_first_dash_spacing (by decide) (by decide) (by decide) (by decide) (by decide)
    (by decide) (by decide) (by decide) (by decide) (by decide)



/-- C7 (confirmed): parsing a valid `YYYY MM DD HHMM - HHMM` line and
formatting the resulting pair with `fmt_meeting_row` reproduces the
same calendar date and both original `HHMM` token values in the listing
row (years restricted to four digits, where `%Y` is unambiguous). -/
theorem parse_format_round_trip {y mo d h1 m1 h2 m2 : Nat} (mid : Int) (title desc : String)
    (hy1 : 1000 ≤ y) (hy2 : y ≤ 9999) (hmo1 : 1 ≤ mo) (hmo2 : mo ≤ 12)
    (hd1 : 1 ≤ d) (hd2 : d ≤ daysInMonth y mo)
    (hh1 : h1 ≤ 23) (hm1 : m1 ≤ 59) (hh2 : h2 ≤ 23) (hm2 : m2 ≤ 59) :
    parse_dt ⟨(padDigits 4 y ++ ' ' :: (padDigits 2 mo ++ ' ' :: (padDigits 2 d ++ ' ' ::
        (padDigits 2 h1 ++ padDigits 2 m1)))) ++ [' '] ++
        '-' :: ([' '] ++ (padDigits 2 h2 ++ padDigits 2 m2))⟩ =
      (some ⟨y, mo, d, h1, m1, 0⟩, some ⟨y, mo, d, h2, m2, 0⟩) ∧
    fmt_meeting_row mid title desc (isoString ⟨y, mo, d, h1, m1, 0⟩)
        (some (isoString ⟨y, mo, d, h2, m2, 0⟩)) =
      some (
        (if desc = "" then
          "id: [" ++ toString mid ++ "] " ++ title ++ "\n" ++
            (⟨padDigits 4 y ++ ' ' :: (padDigits 2 mo ++ ' ' :: (padDigits 2 d ++ ' ' ::
              (padDigits 2 h1 ++ padDigits 2 m1)))⟩ : String) ++ " - " ++
            (⟨padDigits 2 h2 ++ padDigits 2 m2⟩ : String)
        else
          "id: [" ++ toString mid ++ "] " ++ title ++ "\n" ++
            (⟨padDigits 4 y ++ ' ' :: (padDigits 2 mo ++ ' ' :: (padDigits 2 d ++ ' ' ::
              (padDigits 2 h1 ++ padDigits 2 m1)))⟩ : String) ++ " - " ++
            (⟨padDigits 2 h2 ++ padDigits 2 m2⟩ : String) ++ "\ndesc: " ++ desc)) := by
  have hvs : validDT ⟨y, mo, d, h1, m1, 0⟩ :=
    validDT_mk (by omega) hy2 hmo1 hmo2 hd1 hd2 hh1 hm1
  have hve : validDT ⟨y, mo, d, h2, m2, 0⟩ :=
    validDT_mk (by omega) hy2 hmo1 hmo2 hd1 hd2 hh2 hm2
  constructor
  · exact parse_dt_canonical (by omega) hy2 hmo1 hmo2 hd1 hd2 hh1 hm1 hh2 hm2
      [' '] [' '] (by decide) (by decide)
  · unfold fmt_meeting_row
    rw [fromIsoAware_isoString hvs]
    simp only [Option.bind_eq_bind, Option.some_bind]
    rw [if_neg (isoString_ne_empty _)]
    rw [fromIsoAware_isoString hve]
    simp only [Option.bind_eq_bind, Option.some_bind, Option.pure_def]
    unfold fmtYmdHM fmtHM
    rw [natChars_of_four hy1 hy2]

/-- C7 witness at the concrete input `2024 06 10 0900 - 0930`. -/
theorem parse_format_round_trip_witness :
    parse_dt ⟨(padDigits 4 2024 ++ ' ' :: (padDigits 2 6 ++ ' ' :: (padDigits 2 10 ++ ' ' ::
        (padDigits 2 9 ++ padDigits 2 0)))) ++ [' '] ++
        '-' :: ([' '] ++ (padDigits 2 9 ++ padDigits 2 30))⟩ =
      (some ⟨2024, 6, 10, 9, 0, 0⟩, some ⟨2024, 6, 10, 9, 30, 0⟩) ∧
    fmt_meeting_row 1 "Standup" "" (isoString ⟨2024, 6, 10, 9, 0, 0⟩)
        (some (isoString ⟨2024, 6, 10, 9, 30, 0⟩)) =
      some (
        (if ("" : String) = "" then
          "id: [" ++ toString (1 : Int) ++ "] " ++ "Standup" ++ "\n" ++
            (⟨padDigits 4 2024 ++ ' ' :: (padDigits 2 6 ++ ' ' :: (padDigits 2 10 ++ ' ' ::
              (padDigits 2 9 ++ padDigits 2 0)))⟩ : String) ++ " - " ++
            (⟨padDigits 2 9 ++ padDigits 2 30⟩ : String)
        else
          "id: [" ++ toString (1 : Int) ++ "] " ++ "Standup" ++ "\n" ++
            (⟨padDigits 4 2024 ++ ' ' :: (padDigits 2 6 ++ ' ' :: (padDigits 2 10 ++ ' ' ::
              (padDigits 2 9 ++ padDigits 2 0)))⟩ : String) ++ " - " ++
            (⟨padDigits 2 9 ++ padDigits 2 30⟩ : String) ++ "\ndesc: " ++ "")) :=
  parse_format_round_trip 1 "Standup" "" (by decide) (by decide) (by decide) (by decide)
    (by decide) (by decide) (by decide) (by decide) (by decide) (by decide)


end Meetingbot
